import Mathlib

/-!
Verification of the universal-scraper core (`universal_scraper.py`) against its
natural-language specification.

The Python source is shallowly embedded: strings are `List Char` (one entry per
code point, so `List.length` matches Python `len`), machine integers are `Nat`
or `Int` (Python ints are unbounded), floats produced by the two density /
ratio divisions are modelled as exact rationals `ℚ`, fallible results are
`Option`, and DOM queries performed by BeautifulSoup (which are out of scope
for every claim) are abstracted as fields of a `Soup` record carrying their
results.  All definitions are executable so that concrete witnesses and
counterexamples evaluate by `decide` / `rfl`.
-/

namespace Scraper

/-- Python `\s` / `str.strip` whitespace on the ASCII range (the source never
manipulates non-ASCII whitespace). -/
def pyIsSpace (c : Char) : Bool :=
  c = ' ' || c = '\t' || c = '\n' || c = '\r' || c = Char.ofNat 11 || c = Char.ofNat 12

/-- Python slice `l[a:b]` for non-negative clamped bounds. -/
def sliceNat (l : List Char) (a b : Nat) : List Char :=
  (l.take b).drop a

/-- Python `str.strip()`: drop leading and trailing whitespace.  Written as a
slice so that a stripped string is literally a contiguous window of the
original. -/
def pyStrip (l : List Char) : List Char :=
  sliceNat l (l.takeWhile pyIsSpace).length (l.length - (l.reverse.takeWhile pyIsSpace).length)

/-- ASCII lowering, modelling Python `str.lower()` (exact on the ASCII inputs
handled by the source's URL / content-type checks). -/
def pyLowerChar (c : Char) : Char :=
  if 'A' ≤ c ∧ c ≤ 'Z' then Char.ofNat (c.toNat + 32) else c

def pyLower (l : List Char) : List Char := l.map pyLowerChar

/-- Does `l` start with `pre` (plain character-list comparison)? -/
def startsWithL : List Char → List Char → Bool
  | [], _ => true
  | _ :: _, [] => false
  | p :: ps, c :: cs => p = c && startsWithL ps cs

/-- Python `sub in s`: substring containment. -/
def containsL (needle : List Char) : List Char → Bool
  | [] => startsWithL needle []
  | c :: cs => startsWithL needle (c :: cs) || containsL needle cs

/-- Case-insensitive substring containment (the source's
`re.search(pat, s, re.IGNORECASE)` for a plain alternation of casings of one
word reduces to this). -/
def containsCI (s needle : List Char) : Bool :=
  containsL (pyLower needle) (pyLower s)

/-- Abstraction of a parsed BeautifulSoup DOM.  Each field records the result
of one of the black-box DOM queries the embedded functions perform:
`scriptText` is the space-joined concatenation of all script texts,
the three `has…` flags are the `soup.find` probes for SPA markers,
`textContent` is `soup.get_text()`, `serializedLen` is `len(str(soup))`, the
four `…Result` fields are the return values of the four content-extraction
strategies (`_extract_by_semantic_tags`, `_extract_by_common_classes`,
`_extract_by_content_density`, `_extract_by_text_length`), and
`titleResult` / `authorResult` are `extract_title` / `extract_author`. -/
structure Soup where
  scriptText : List Char
  hasIdRoot : Bool
  hasIdApp : Bool
  hasAppRootClass : Bool
  textContent : List Char
  serializedLen : Nat
  semanticTagsResult : Option (List Char)
  commonClassesResult : Option (List Char)
  densityResult : Option (List Char)
  textLengthResult : Option (List Char)
  titleResult : List Char
  authorResult : List Char
deriving DecidableEq

/-- Result record of `WebsiteArchitectureDetector.detect_architecture`. -/
structure ArchResult where
  strategy : String
  react : Bool
  vue : Bool
  angular : Bool
  next : Bool
  content_density : ℚ
  needs_js : Bool
deriving DecidableEq

/-- Embeds `WebsiteArchitectureDetector.detect_architecture`.  The framework
probes `re.search(r'react|React|\breact\b', script_content, re.IGNORECASE)`
(and the vue / angular / next analogues) succeed exactly when the word occurs
case-insensitively as a substring, which is how they are embedded.
`content_density` is `len(text_content.strip()) / max(len(str(soup)), 1)`
computed exactly in `ℚ` (`mkRat a b` is the exact value `(a : ℚ) / b` of the
float division, both denominators here being nonzero; `mkRat 2 100` is the
`0.02` literal).  The `url` argument is accepted and ignored, exactly as in
the source. -/
def detect_architecture (soup : Soup) (_url : List Char) : ArchResult :=
  let is_react := containsCI soup.scriptText "react".data
  let is_vue := containsCI soup.scriptText "vue".data
  let is_angular := containsCI soup.scriptText "angular".data
  let is_next := containsCI soup.scriptText "next".data
  let has_spa_indicators := soup.hasIdRoot || soup.hasIdApp || soup.hasAppRootClass
  let content_density : ℚ :=
    mkRat (pyStrip soup.textContent).length (max soup.serializedLen 1)
  let strategy : String :=
    if content_density < mkRat 2 100 ∨ has_spa_indicators then "javascript_heavy"
    else if is_react ∨ is_vue ∨ is_angular ∨ is_next then "framework_based"
    else "static_html"
  { strategy := strategy
    react := is_react, vue := is_vue, angular := is_angular, next := is_next
    content_density := content_density
    needs_js := strategy = "javascript_heavy" ∨ strategy = "framework_based" }

/-- Character class of `re.sub(r'[#*\[\]()_`-]', '', content)` in
`_is_quality_content` (the backquote is written via its code point). -/
def mdSyntaxChars : List Char :=
  ['#', '*', '[', ']', '(', ')', '_', Char.ofNat 96, '-']

/-- Embeds `UniversalContentDetector._is_quality_content`: non-empty, trimmed
length at least 100, and `len(re.sub(r'[#*\[\]()_`-]', '', content)) /
len(content) > 0.5`, with the float division modelled exactly in `ℚ` via
`mkRat` (equal to `(a : ℚ) / b`, the denominator being nonzero there). -/
def is_quality_content (content : List Char) : Bool :=
  if content = [] ∨ (pyStrip content).length < 100 then false
  else
    let text_content := content.filter (fun c => ¬ c ∈ mdSyntaxChars)
    let ratio : ℚ := mkRat text_content.length content.length
    ratio > mkRat 1 2

/-- The strategy cascade of `extract_main_content`, in source order. -/
def contentStrategies (soup : Soup) : List (Option (List Char)) :=
  [soup.semanticTagsResult, soup.commonClassesResult,
   soup.densityResult, soup.textLengthResult]

/-- One step of the cascade loop: `if content and self._is_quality_content(content):
return content` (Python truthiness: a `None` or empty string falls through). -/
def firstQualityContent : List (Option (List Char)) → Option (List Char)
  | [] => none
  | o :: rest =>
    match o with
    | some c => if c ≠ [] ∧ is_quality_content c then some c else firstQualityContent rest
    | none => firstQualityContent rest

/-- Embeds `UniversalContentDetector.extract_main_content`: run the four
strategies in order, return the first output that is truthy and passes
`_is_quality_content`, else `None`. -/
def extract_main_content (soup : Soup) : Option (List Char) :=
  firstQualityContent (contentStrategies soup)

/-- Does some suffix of the list satisfy `p`?  This is the search part of
`re.search`: a regex with no anchors matches iff it matches at some start
position. -/
def anySuffix (p : List Char → Bool) : List Char → Bool
  | [] => p []
  | c :: cs => p (c :: cs) || anySuffix p cs

/-- Greedily consume characters satisfying `p`, returning the count consumed
and the remainder. -/
def consumeWhile (p : Char → Bool) : List Char → Nat × List Char
  | [] => (0, [])
  | c :: cs =>
    if p c then
      let (n, rest) := consumeWhile p cs
      (n + 1, rest)
    else (0, c :: cs)

def isLowerAZ (c : Char) : Bool := 'a' ≤ c && c ≤ 'z'

/-- Match of `re.search(r'/20\d{2}/', url)` at the head of the list. -/
def yearPatternAt : List Char → Bool
  | '/' :: '2' :: '0' :: d1 :: d2 :: '/' :: _ => d1.isDigit && d2.isDigit
  | _ => false

/-- Match of `re.search(r'/p-\d+', url)` at the head of the list. -/
def substackPatternAt : List Char → Bool
  | '/' :: 'p' :: '-' :: d :: _ => d.isDigit
  | _ => false

/-- Match of `re.search(r'/\d+/', url)` at the head of the list (one or more
digits between two slashes; greedy digit consumption is exact because a digit
can never match the closing `/`). -/
def numericIdPatternAt : List Char → Bool
  | '/' :: rest =>
    let (n, rest') := consumeWhile Char.isDigit rest
    n > 0 && (match rest' with | '/' :: _ => true | _ => false)
  | _ => false

/-- Match of `re.search(r'[a-z]+-[a-z]+-[a-z]+', url)` at the head of the
list.  Greedy (maximal-munch) letter runs are exact here because `[a-z]` and
`-` are disjoint, so the backtracking regex engine accepts at a position iff
the maximal-munch scan does. -/
def slugPatternAt (l : List Char) : Bool :=
  let (n1, r1) := consumeWhile isLowerAZ l
  n1 > 0 &&
    (match r1 with
     | '-' :: r1' =>
       let (n2, r2) := consumeWhile isLowerAZ r1'
       n2 > 0 &&
         (match r2 with
          | '-' :: r2' =>
            let (n3, _) := consumeWhile isLowerAZ r2'
            n3 > 0
          | _ => false)
     | _ => false)

/-- The fixed positive path-segment list `article_indicators` of
`_is_likely_article_url`. -/
def article_indicators : List (List Char) :=
  ["/blog/".data, "/post/".data, "/article/".data, "/story/".data, "/guide/".data,
   "/tutorial/".data, "/how-to/".data, "/tips/".data, "/news/".data, "/insights/".data,
   "/p-".data, "/post-".data, "/article-".data]

/-- The fixed negative list `avoid_patterns` of `_is_likely_article_url`. -/
def avoid_patterns : List (List Char) :=
  ["/tag/".data, "/category/".data, "/author/".data, "/page/".data, "/search/".data,
   "/login/".data, "/register/".data, "/contact/".data, "/about/".data, "/api/".data,
   ".pdf".data, ".jpg".data, ".png".data, ".gif".data, ".css".data, ".js".data, ".xml".data,
   "/feed".data, "/rss".data, "/sitemap".data, "/book".data, "/demo".data, "/pricing".data,
   "/trial".data, "/signup".data, "/calendar".data, "/schedule".data, "cal.com".data,
   "calendly.com".data, "/meeting".data, "/appointment".data, "/call".data, "/intro".data,
   "/consultation".data, "/support".data, "/help".data, "/faq".data, "/terms".data,
   "/privacy".data, "/policy".data, "/legal".data, "/careers".data, "/jobs".data]

/-- `has_article_indicator`: some fixed segment occurs in the lowercased URL. -/
def has_article_indicator (url : List Char) : Bool :=
  article_indicators.any (fun ind => containsL ind (pyLower url))

/-- `has_date`: the `/20\d{2}/` pattern occurs (searched on the original,
non-lowercased URL, as in the source). -/
def has_date (url : List Char) : Bool := anySuffix yearPatternAt url

/-- `has_modern_pattern`: one of the three modern slug / ID regexes matches
(searched on the original, non-lowercased URL, as in the source). -/
def has_modern_pattern (url : List Char) : Bool :=
  anySuffix substackPatternAt url || anySuffix slugPatternAt url ||
    anySuffix numericIdPatternAt url

/-- `has_avoid_pattern`: some negative indicator occurs in the lowercased URL. -/
def has_avoid_pattern (url : List Char) : Bool :=
  avoid_patterns.any (fun ind => containsL ind (pyLower url))

/-- Embeds `UniversalContentDetector._is_likely_article_url`. -/
def is_likely_article_url (url : List Char) : Bool :=
  (has_article_indicator url || has_date url || has_modern_pattern url) &&
    !has_avoid_pattern url

/-- Embeds the module-level `detect_content_type(url, title, content)`.
`content_lower` is `content.lower()[:500]` — lowercase first, then the first
500 characters — and every branch mirrors the source's `if` chain. -/
def detect_content_type (url title content : List Char) : String :=
  let url_lower := pyLower url
  let title_lower := pyLower title
  let content_lower := (pyLower content).take 500
  if containsL "linkedin.com".data url_lower then
    if containsL "/posts/".data url_lower || containsL "/feed/update/".data url_lower then
      "linkedin_post"
    else if containsL "/pulse/".data url_lower then "blog"
    else "linkedin_post"
  else if containsL "reddit.com".data url_lower then
    if containsL "/comments/".data url_lower then "reddit_comment"
    else "reddit_comment"
  else
    let podcast_indicators :=
      ["podcast".data, "transcript".data, "audio".data, "episode".data, "interview".data]
    if podcast_indicators.any (fun ind => containsL ind url_lower) then "podcast_transcript"
    else if podcast_indicators.any (fun ind => containsL ind title_lower) then "podcast_transcript"
    else if (["transcript:".data, "speaker:".data, "host:".data, "[music]".data,
              "[applause]".data] : List (List Char)).any
              (fun ind => containsL ind content_lower) then "podcast_transcript"
    else if (["call transcript".data, "meeting transcript".data, "call notes".data,
              "meeting notes".data] : List (List Char)).any
              (fun ind => containsL ind title_lower) then "call_transcript"
    else if (["attendees:".data, "participants:".data, "meeting started".data,
              "call ended".data] : List (List Char)).any
              (fun ind => containsL ind content_lower) then "call_transcript"
    else if containsL "youtube.com".data url_lower || containsL "youtu.be".data url_lower then
      if (["podcast".data, "interview".data, "talk".data, "discussion".data] :
            List (List Char)).any (fun ind => containsL ind title_lower) then
        "podcast_transcript"
      else "blog"
    else "blog"

/-- Embeds the `ContentItem` dataclass. -/
structure ContentItem where
  title : List Char
  content : List Char
  content_type : String := "blog"
  source_url : List Char := []
  author : List Char := []
  user_id : List Char := []
deriving DecidableEq

/-- One `{'title': ..., 'url': ...}` record, as produced by
`_fetch_with_requests_fallback` and by the click-discovery phase. -/
structure LinkInfo where
  title : List Char
  url : List Char
deriving DecidableEq

/-- Environment for the `UniversalScraper.scrape` run.  Every field abstracts
one of the effectful collaborators the orchestrator calls: the three fetch
fields are the results of `_fetch_page(base_url)`, `_fetch_page(base_url,
use_js=True)` and `_fetch_with_playwright(base_url)`; `fallbackLinks` is the
result of `_fetch_with_requests_fallback` (whose own filter only guarantees
`len(title) > 10`); `findLinks` is `detector.find_article_links`;
`fetchArticle url useJs` is `_fetch_page(url, use_js)` inside
`_scrape_article`; `hasDriver`, `clickDiscovered` and `clickFetch` model the
Selenium driver, the `{title, url}` records the click-discovery browser phase
produced, and the per-URL page fetch of the click scraping phase (`none`
models the caught per-URL exception); `clickRaises` models
`_scrape_with_click_discovery` raising, which `scrape` catches and falls back
from; `cfgMaxArticles` is `config.get('max_articles', 50)`. -/
structure ScrapeEnv where
  base_url : List Char
  cfgMaxArticles : Nat
  fetchMain : Option Soup
  fetchJs : Option Soup
  fetchPlaywright : Option Soup
  fallbackLinks : List LinkInfo
  findLinks : Soup → List (List Char)
  fetchArticle : List Char → Bool → Option Soup
  hasDriver : Bool
  clickDiscovered : List LinkInfo
  clickFetch : List Char → Option Soup
  clickRaises : Bool

/-- Embeds `UniversalScraper._should_use_click_discovery`: substring test of
the five platform patterns against `self.base_url.lower()`. -/
def should_use_click_discovery (base_url : List Char) : Bool :=
  (["quill.co/blog".data, "substack.com".data, "medium.com".data,
    "ghost.org".data, "notion.site".data] : List (List Char)).any
    (fun pat => containsL pat (pyLower base_url))

/-- The placeholder item built in `scrape`'s requests-fallback branch:
`ContentItem(title=..., content=f"Article preview: {title} (Browser-based
scraping not available in this environment)", source_url=...)`, the remaining
fields taking the dataclass defaults. -/
def placeholderItem (li : LinkInfo) : ContentItem :=
  { title := li.title
    content := "Article preview: ".data ++ li.title ++
      " (Browser-based scraping not available in this environment)".data
    source_url := li.url }

/-- Embeds `UniversalScraper._scrape_article`: fetch the page, run
`extract_main_content`, reject (`None`) when the content is falsy or its
stripped length is below 100, otherwise assemble the `ContentItem` with the
extracted title / author and `detect_content_type`. -/
def scrape_article (env : ScrapeEnv) (url : List Char) (useJs : Bool) :
    Option ContentItem :=
  match env.fetchArticle url useJs with
  | none => none
  | some soup =>
    match extract_main_content soup with
    | none => none
    | some content =>
      if content = [] ∨ (pyStrip content).length < 100 then none
      else
        let title := soup.titleResult
        let author := soup.authorResult
        some { title := title, content := content
               content_type := detect_content_type url title content
               source_url := url, author := author, user_id := [] }

/-- Embeds the scraping phase of `UniversalScraper._scrape_with_click_discovery`:
no driver yields `[]`; otherwise at most `max_articles` discovered records
are each fetched and kept when `extract_main_content` output is truthy with
stripped length at least 100; the title falls back to the discovered one when
`extract_title` is falsy, and `content_type` is fixed to `"blog"`. -/
def scrape_with_click_discovery (env : ScrapeEnv) : List ContentItem :=
  if ¬ env.hasDriver then []
  else
    (env.clickDiscovered.take env.cfgMaxArticles).filterMap fun info =>
      match env.clickFetch info.url with
      | none => none
      | some soup =>
        match extract_main_content soup with
        | none => none
        | some content =>
          if content ≠ [] ∧ (pyStrip content).length ≥ 100 then
            some { title := if soup.titleResult = [] then info.title else soup.titleResult
                   content := content, content_type := "blog"
                   source_url := info.url, author := soup.authorResult, user_id := [] }
          else none

/-- The sequential article loop at the end of `scrape`: iterate over
`article_links[:max_articles]`, skip URLs already in `self.scraped_urls`,
append each successful `_scrape_article` result and record its URL. -/
def scrapeLoop (env : ScrapeEnv) (useJs : Bool) :
    List (List Char) → List (List Char) → List ContentItem
  | [], _ => []
  | url :: rest, scraped =>
    if url ∈ scraped then scrapeLoop env useJs rest scraped
    else
      match scrape_article env url useJs with
      | some item => item :: scrapeLoop env useJs rest (url :: scraped)
      | none => scrapeLoop env useJs rest scraped

/-- The second half of `UniversalScraper.scrape`, from `find_article_links`
on: attempt click discovery when `needs_js` and the platform allow-list
matches (its results returned outright when non-empty, a raised exception
falling through), else run the sequential pattern loop over
`article_links[:max_articles]`. -/
def scrapeContinue (env : ScrapeEnv) (architecture : ArchResult) (soup : Soup) :
    List ContentItem :=
  if architecture.needs_js ∧ should_use_click_discovery env.base_url then
    if env.clickRaises then
      scrapeLoop env architecture.needs_js ((env.findLinks soup).take env.cfgMaxArticles) []
    else
      if (scrape_with_click_discovery env).length > 0 then scrape_with_click_discovery env
      else scrapeLoop env architecture.needs_js ((env.findLinks soup).take env.cfgMaxArticles) []
  else scrapeLoop env architecture.needs_js ((env.findLinks soup).take env.cfgMaxArticles) []

/-- Embeds `UniversalScraper.scrape` (its pure control flow over the
environment): fetch, classify, refetch through the browser chain when
`needs_js` — Selenium, then Playwright, then the placeholder-item requests
fallback as last resort — and continue with `scrapeContinue` (the part of the
source function after the refetch block). -/
def scrape (env : ScrapeEnv) : List ContentItem :=
  match env.fetchMain with
  | none => []
  | some soup0 =>
    if (detect_architecture soup0 env.base_url).needs_js then
      match env.fetchJs with
      | some s => scrapeContinue env (detect_architecture soup0 env.base_url) s
      | none =>
        match env.fetchPlaywright with
        | some s => scrapeContinue env (detect_architecture soup0 env.base_url) s
        | none => env.fallbackLinks.map placeholderItem
    else scrapeContinue env (detect_architecture soup0 env.base_url) soup0

/-- State-passing embedding of `re.sub(r'\s+', ' ', text)`: each maximal
whitespace run becomes a single space.  The Boolean records whether the
previous character was whitespace. -/
def collapseWsAux : Bool → List Char → List Char
  | _, [] => []
  | prevSpace, c :: cs =>
    if pyIsSpace c then
      if prevSpace then collapseWsAux true cs
      else ' ' :: collapseWsAux true cs
    else c :: collapseWsAux false cs

/-- The cleaning step at the top of `chunk_text`:
`re.sub(r'\s+', ' ', text).strip()`. -/
def cleanWs (l : List Char) : List Char :=
  pyStrip (collapseWsAux false l)

/-- ASCII model of Python regex `\w` (the source only chapter-matches ASCII
text after `_clean_pdf_text` has run). -/
def isWordChar (c : Char) : Bool := c.isAlpha || c.isDigit || c = '_'

/-- A `\b` before a pattern whose first character is a word character holds
iff the match is at position 0 or the previous character is a non-word
character. -/
def boundaryBefore : Option Char → Bool
  | none => true
  | some c => ¬ isWordChar c

/-- Consume a literal case-insensitively, returning the remainder. -/
def litCI : List Char → List Char → Option (List Char)
  | [], l => some l
  | _ :: _, [] => none
  | c :: cs, x :: xs => if pyLowerChar x = pyLowerChar c then litCI cs xs else none

/-- Consume a literal case-sensitively, returning the remainder. -/
def matchLit : List Char → List Char → Option (List Char)
  | [], l => some l
  | _ :: _, [] => none
  | c :: cs, x :: xs => if x = c then matchLit cs xs else none

/-- Consume one or more characters satisfying `p` (greedy `p+`). -/
def consumeSome (p : Char → Bool) (l : List Char) : Option (List Char) :=
  let (n, rest) := consumeWhile p l
  if n > 0 then some rest else none

/-- Consume one character satisfying `p` (a one-character class). -/
def consumeOne (p : Char → Bool) : List Char → Option (List Char)
  | [] => none
  | c :: cs => if p c then some cs else none

def isSentEnd (c : Char) : Bool := c = '.' || c = '!' || c = '?'

def isDotOrSpace (c : Char) : Bool := c = '.' || pyIsSpace c

/-!
The eight `chapter_patterns` of `_find_chapter_boundaries`, compiled with
`re.IGNORECASE | re.MULTILINE`.  Each matcher takes the character preceding
the position (for `\b`) and the suffix at the position, and returns the match
length.  Greedy maximal-munch consumption is exact for every pattern because
each quantified class is disjoint from the character that must follow it
(`\s` vs `\d`, `\d` vs `[.\s]`, etc.), so the backtracking engine and the
greedy scan accept the same positions with the same lengths.
-/

/-- Pattern `r'\bChapter\s+\d+[.\s]'` (case-insensitive). -/
def chapMatch1 (prev : Option Char) (l : List Char) : Option Nat :=
  if boundaryBefore prev then
    (litCI "chapter".data l).bind fun r1 =>
    (consumeSome pyIsSpace r1).bind fun r2 =>
    (consumeSome Char.isDigit r2).bind fun r3 =>
    (consumeOne isDotOrSpace r3).map fun r4 =>
    l.length - r4.length
  else none

/-- Pattern `r'\bCh\s*\d+[.\s]'` (case-insensitive). -/
def chapMatch2 (prev : Option Char) (l : List Char) : Option Nat :=
  if boundaryBefore prev then
    (litCI "ch".data l).bind fun r1 =>
    (consumeSome Char.isDigit (consumeWhile pyIsSpace r1).2).bind fun r3 =>
    (consumeOne isDotOrSpace r3).map fun r4 =>
    l.length - r4.length
  else none

/-- Pattern `r'\bCHAPTER\s+\d+[.\s]'` (case-insensitive, hence the same
matches as the first pattern; kept as its own definition mirroring the
source list). -/
def chapMatch3 (prev : Option Char) (l : List Char) : Option Nat :=
  if boundaryBefore prev then
    (litCI "CHAPTER".data l).bind fun r1 =>
    (consumeSome pyIsSpace r1).bind fun r2 =>
    (consumeSome Char.isDigit r2).bind fun r3 =>
    (consumeOne isDotOrSpace r3).map fun r4 =>
    l.length - r4.length
  else none

/-- Pattern `r'\bCh\s+\d+\.'` (case-insensitive). -/
def chapMatch4 (prev : Option Char) (l : List Char) : Option Nat :=
  if boundaryBefore prev then
    (litCI "ch".data l).bind fun r1 =>
    (consumeSome pyIsSpace r1).bind fun r2 =>
    (consumeSome Char.isDigit r2).bind fun r3 =>
    (consumeOne (fun c => c = '.') r3).map fun r4 =>
    l.length - r4.length
  else none

/-- Pattern `r'\bCh\d+\.'` (case-insensitive). -/
def chapMatch5 (prev : Option Char) (l : List Char) : Option Nat :=
  if boundaryBefore prev then
    (litCI "ch".data l).bind fun r1 =>
    (consumeSome Char.isDigit r1).bind fun r3 =>
    (consumeOne (fun c => c = '.') r3).map fun r4 =>
    l.length - r4.length
  else none

/-- Pattern `r'\b\d+\.\s+[A-Z][^.]{10,}'` (case-insensitive, so `[A-Z]` is
any ASCII letter; `[^.]{10,}` greedily takes every following non-dot
character and requires at least ten). -/
def chapMatch6 (prev : Option Char) (l : List Char) : Option Nat :=
  if boundaryBefore prev then
    (consumeSome Char.isDigit l).bind fun r1 =>
    (consumeOne (fun c => c = '.') r1).bind fun r2 =>
    (consumeSome pyIsSpace r2).bind fun r3 =>
    (consumeOne Char.isAlpha r3).bind fun r4 =>
    let (n, r5) := consumeWhile (fun c => c ≠ '.') r4
    if n ≥ 10 then some (l.length - r5.length) else none
  else none

/-- Pattern `r'\n\s*\d+\s+[A-Z][^.\n]{10,}'` (case-insensitive). -/
def chapMatch7 (_prev : Option Char) (l : List Char) : Option Nat :=
  (consumeOne (fun c => c = '\n') l).bind fun r1 =>
  (consumeSome Char.isDigit (consumeWhile pyIsSpace r1).2).bind fun r3 =>
  (consumeSome pyIsSpace r3).bind fun r4 =>
  (consumeOne Char.isAlpha r4).bind fun r5 =>
  let (n, r6) := consumeWhile (fun c => c ≠ '.' && c ≠ '\n') r5
  if n ≥ 10 then some (l.length - r6.length) else none

/-- Pattern `r'\n\s*Ch\s*\d+[.\s]'` (case-insensitive). -/
def chapMatch8 (_prev : Option Char) (l : List Char) : Option Nat :=
  (consumeOne (fun c => c = '\n') l).bind fun r1 =>
  (litCI "ch".data (consumeWhile pyIsSpace r1).2).bind fun r2 =>
  (consumeSome Char.isDigit (consumeWhile pyIsSpace r2).2).bind fun r4 =>
  (consumeOne isDotOrSpace r4).map fun r5 =>
  l.length - r5.length

/-- `re.finditer` over the text: scan left to right, at each position try the
matcher; on a match record its start and resume after it (all the source's
patterns match at least one character, `max len 1` only guards progress),
otherwise advance one character.  The structural `fuel` argument only bounds
the recursion: every step consumes at least one character, so the
`text.length` supplied by `finditerStarts` is never exhausted. -/
def finditerAux (m : Option Char → List Char → Option Nat) :
    Nat → Option Char → Nat → List Char → List Nat
  | 0, _, _, _ => []
  | _ + 1, _, _, [] => []
  | fuel + 1, prev, pos, c :: cs =>
    match m prev (c :: cs) with
    | some len =>
      pos :: finditerAux m fuel ((c :: cs).get? (max len 1 - 1)) (pos + max len 1)
        ((c :: cs).drop (max len 1))
    | none => finditerAux m fuel (some c) (pos + 1) cs

/-- Start positions of all `re.finditer` matches of `m` in `text`. -/
def finditerStarts (m : Option Char → List Char → Option Nat) (text : List Char) : List Nat :=
  finditerAux m text.length none 0 text

/-- The ordered `chapter_patterns` list. -/
def chapterMatchers : List (Option Char → List Char → Option Nat) :=
  [chapMatch1, chapMatch2, chapMatch3, chapMatch4, chapMatch5, chapMatch6,
   chapMatch7, chapMatch8]

/-- The pattern-selection loop of `_find_chapter_boundaries`: the first
pattern with at least two matches wins; its match starts are returned
(`[]` when no pattern has two matches). -/
def firstPatternStarts : List (Option Char → List Char → Option Nat) → List Char → List Nat
  | [], _ => []
  | m :: ms, text =>
    let starts := finditerStarts m text
    if starts.length ≥ 2 then starts else firstPatternStarts ms text

/-- One branch of `re.sub(r'^(Chapter|Ch|CHAPTER)\s*\d+[.\s]*', '', line)`
(case-sensitive): the literal, then `\s*`, then required `\d+`, then
`[.\s]*`; returns the remainder after the matched prefix. -/
def markerBranch (lit l : List Char) : Option (List Char) :=
  (matchLit lit l).bind fun r1 =>
  (consumeSome Char.isDigit (consumeWhile pyIsSpace r1).2).map fun r3 =>
  (consumeWhile isDotOrSpace r3).2

/-- The anchored `re.sub` above: alternation tried left to right with full
backtracking across branches; at most one replacement since `^` only matches
position 0. -/
def stripChapterMarker (l : List Char) : List Char :=
  match markerBranch "Chapter".data l with
  | some r => r
  | none =>
    match markerBranch "Ch".data l with
    | some r => r
    | none =>
      match markerBranch "CHAPTER".data l with
      | some r => r
      | none => l

/-- Chapter-title extraction inside `_find_chapter_boundaries`: the first 200
characters from the match start, cut at the first newline, stripped, the
chapter-marker prefix removed, stripped again; falling back to
`f"Chapter {i + 1}"` when empty. -/
def mkChapterTitle (text : List Char) (s i : Nat) : List Char :=
  let title_match := sliceNat text s (s + 200)
  let title_line := pyStrip (title_match.takeWhile (fun c => c ≠ '\n'))
  let title_clean := pyStrip (stripChapterMarker title_line)
  if title_clean = [] then "Chapter ".data ++ (toString (i + 1)).data else title_clean

/-- One entry of the list built by `_find_chapter_boundaries`. -/
structure PyChapter where
  title : List Char
  content : List Char
  index : Nat
deriving DecidableEq

/-- The chapter-building loop: chapter `i` spans from its match start to the
next match start (or to the end of the text for the last one), stripped. -/
def buildChapters (text : List Char) : Nat → List Nat → List PyChapter
  | _, [] => []
  | i, s :: rest =>
    let e := match rest with | s' :: _ => s' | [] => text.length
    { title := mkChapterTitle text s i
      content := pyStrip (sliceNat text s e)
      index := i } :: buildChapters text (i + 1) rest

/-- Embeds `PDFProcessor._find_chapter_boundaries`. -/
def find_chapter_boundaries (text : List Char) : List PyChapter :=
  buildChapters text 0 (firstPatternStarts chapterMatchers text)

/-- One chunk record as emitted by the chunker. -/
structure Chunk where
  title : List Char
  content : List Char
  content_type : String
  chunk_index : Nat
  total_chunks : Nat
deriving DecidableEq

/-- Python slice index resolution (negative indices count from the end,
both ends clamped). -/
def pySliceIdx (len : Nat) (i : Int) : Nat :=
  if i < 0 then (if (len : Int) + i < 0 then 0 else ((len : Int) + i).toNat)
  else min i.toNat len

/-- Python `l[a:b]` with full slice semantics over `Int` bounds. -/
def pySliceI (l : List Char) (a b : Int) : List Char :=
  sliceNat l (pySliceIdx l.length a) (pySliceIdx l.length b)

/-- Python `l[i]` (negative indices count from the end; `none` is the
out-of-range `IndexError` case, which no claim-relevant input reaches). -/
def pyIndex (l : List Char) (i : Int) : Option Char :=
  if 0 ≤ i then l.get? i.toNat
  else if 0 ≤ (l.length : Int) + i then l.get? ((l.length : Int) + i).toNat
  else none

/-- Python `range(a, b)` over `Int`. -/
def intRange (a b : Int) : List Int :=
  (List.range (b - a).toNat).map (fun k => a + k)

/-- Python `content.rfind('\n\n', a, b)`: the largest start index of `'\n\n'`
lying fully inside the (clamped) window, as an `Option`. -/
def rfindNN (l : List Char) (a b : Int) : Option Nat :=
  ((List.range l.length).filter (fun i =>
    pySliceIdx l.length a ≤ i ∧ i + 2 ≤ pySliceIdx l.length b ∧
    l.get? i = some '\n' ∧ l.get? (i + 1) = some '\n')).max?

/-- The per-candidate break-point condition shared by both chunking loops:
`i < len and text[i] in '.!?' and i + 1 < len and text[i + 1] == ' '`. -/
def sentenceBreakAt (text : List Char) (i : Int) : Bool :=
  i < (text.length : Int) &&
    (pyIndex text i).elim false isSentEnd &&
    (i + 1 < (text.length : Int) && pyIndex text (i + 1) = some ' ')

/-- The break-point computation of one `_split_large_chapter` iteration:
`end = start + chunk_size`, then when `end < len(content)` first
`rfind('\n\n', start, end + 200)` (Python's `-1` not-found value kept for
the `> start` comparison), else the first sentence end in
`range(end - 100, end + 100)`. -/
def splitEnd (content : List Char) (cs : Nat) (start : Int) : Int :=
  if start + cs < (content.length : Int) then
    if (rfindNN content start (start + cs + 200)).elim (-1) (fun n => (n : Int)) > start then
      (rfindNN content start (start + cs + 200)).elim (-1) (fun n => (n : Int))
    else
      match (intRange (start + cs - 100) (start + cs + 100)).find?
          (fun i => sentenceBreakAt content i) with
      | some i => i + 1
      | none => start + cs
  else start + cs

/-- The loop advance shared by both chunking loops:
`start = end - overlap; if start <= 0: start = end`. -/
def advanceStart (e : Int) (ov : Nat) : Int :=
  if e - (ov : Int) ≤ 0 then e else e - (ov : Int)

/-- The `while start < len(content)` loop of `_split_large_chapter`, with a
fuel argument standing for the unbounded loop (the supplied fuel is shown
sufficient under the configurations the theorems assume): compute the break
point, strip the slice, skip empty candidates (`part_index` advances only on
emission), advance by `advanceStart`. -/
def splitLoop (content : List Char) (cs ov : Nat) (title : List Char) (chIdx : Nat) :
    Nat → Int → Nat → List Chunk
  | 0, _, _ => []
  | fuel + 1, start, partIdx =>
    if start < (content.length : Int) then
      if pyStrip (pySliceI content start (splitEnd content cs start)) ≠ [] then
        { title := title ++ " (Part ".data ++ (toString partIdx).data ++ ")".data
          content := pyStrip (pySliceI content start (splitEnd content cs start))
          content_type := "book", chunk_index := chIdx, total_chunks := 0 } ::
          splitLoop content cs ov title chIdx fuel
            (advanceStart (splitEnd content cs start) ov) (partIdx + 1)
      else
        splitLoop content cs ov title chIdx fuel
          (advanceStart (splitEnd content cs start) ov) partIdx
    else []

/-- Embeds `PDFProcessor._split_large_chapter` (each sub-chunk carries the
parent chapter's index and a zero `total_chunks` to be back-filled). -/
def split_large_chapter (cs ov : Nat) (content title : List Char) (chIdx : Nat) :
    List Chunk :=
  splitLoop content cs ov title chIdx (content.length + 1) 0 1

/-- The back-fill loop `for chunk in chunks: chunk["total_chunks"] = total`
shared by `_process_chapter_chunks` and `_size_based_chunking`. -/
def backfillTotals (l : List Chunk) : List Chunk :=
  l.map fun c => { c with total_chunks := l.length }

/-- Embeds `PDFProcessor._process_chapter_chunks`: chapters longer than
`2 * chunk_size` are sub-split, the rest become one chunk each with
`chunk_index = i`; afterwards `total_chunks` is back-filled with the final
count on every chunk. -/
def process_chapter_chunks (cs ov : Nat) (chapters : List PyChapter) : List Chunk :=
  backfillTotals ((chapters.enum.map fun p =>
    if p.2.content.length > cs * 2 then
      split_large_chapter cs ov p.2.content p.2.title p.1
    else
      [{ title := p.2.title, content := p.2.content, content_type := "book"
         chunk_index := p.1, total_chunks := chapters.length }]).flatten)

/-- The break-point computation of one `_size_based_chunking` iteration:
`end = start + chunk_size`, adjusted to the first sentence end in
`range(end - overlap, end + overlap)` when `end < len(text)`. -/
def sizeEnd (text : List Char) (cs ov : Nat) (start : Int) : Int :=
  if start + cs < (text.length : Int) then
    match (intRange (start + cs - (ov : Int)) (start + cs + (ov : Int))).find?
        (fun i => sentenceBreakAt text i) with
    | some i => i + 1
    | none => start + cs
  else start + cs

/-- The `while start < len(text)` loop of `_size_based_chunking` (fuel as in
`splitLoop`): empty candidates are skipped, with `chunk_index` advancing only
on emission. -/
def sizeLoop (text : List Char) (cs ov : Nat) : Nat → Int → Nat → List Chunk
  | 0, _, _ => []
  | fuel + 1, start, chunkIdx =>
    if start < (text.length : Int) then
      if pyStrip (pySliceI text start (sizeEnd text cs ov start)) ≠ [] then
        { title := "Section ".data ++ (toString (chunkIdx + 1)).data
          content := pyStrip (pySliceI text start (sizeEnd text cs ov start))
          content_type := "book", chunk_index := chunkIdx, total_chunks := 0 } ::
          sizeLoop text cs ov fuel (advanceStart (sizeEnd text cs ov start) ov) (chunkIdx + 1)
      else sizeLoop text cs ov fuel (advanceStart (sizeEnd text cs ov start) ov) chunkIdx
    else []

/-- Embeds `PDFProcessor._size_based_chunking` (the `title` parameter is
accepted and unused, as in the source); `total_chunks` back-filled at the
end. -/
def size_based_chunking (cs ov : Nat) (text _title : List Char) : List Chunk :=
  backfillTotals (sizeLoop text cs ov (text.length + 1) 0 0)

/-- Embeds `PDFProcessor.chunk_text` for a processor configured with
`chunk_size = cs` and `chunk_overlap = ov` (source defaults 1000 and 200):
clean, emit a single complete chunk for short text, else chapter-based
chunking when some pattern found at least two chapters, else size-based
chunking. -/
def chunk_text (cs ov : Nat) (text title : List Char) : List Chunk :=
  if (cleanWs text).length ≤ cs then
    [{ title := if title ≠ [] then title ++ " (Complete)".data else "PDF Content".data
       content := cleanWs text, content_type := "book", chunk_index := 0, total_chunks := 1 }]
  else
    if find_chapter_boundaries (cleanWs text) ≠ [] then
      process_chapter_chunks cs ov (find_chapter_boundaries (cleanWs text))
    else size_based_chunking cs ov (cleanWs text) title

/-! ## Concrete inputs used by witnesses and counterexamples -/

/-- A page whose script text mentions React, with content density `4/8 = 1/2`
and no SPA markers (end-to-end scenario C). -/
def soupFw : Soup :=
  { scriptText := "React.createElement".data, hasIdRoot := false, hasIdApp := false
    hasAppRootClass := false, textContent := "aaaa".data, serializedLen := 8
    semanticTagsResult := none, commonClassesResult := none, densityResult := none
    textLengthResult := none, titleResult := [], authorResult := [] }

/-- A 120-character extraction candidate that passes the quality gate. -/
def longContent : List Char := List.replicate 120 'a'

/-- A DOM whose first strategy yields a quality candidate. -/
def soupQual : Soup :=
  { scriptText := [], hasIdRoot := false, hasIdApp := false, hasAppRootClass := false
    textContent := [], serializedLen := 1
    semanticTagsResult := some longContent, commonClassesResult := none
    densityResult := none, textLengthResult := none
    titleResult := "T".data, authorResult := "A".data }

/-- A main page classified `static_html` (density `1/2`, no frameworks). -/
def soupStatic : Soup :=
  { scriptText := [], hasIdRoot := false, hasIdApp := false, hasAppRootClass := false
    textContent := "aaaa".data, serializedLen := 8
    semanticTagsResult := none, commonClassesResult := none, densityResult := none
    textLengthResult := none, titleResult := [], authorResult := [] }

/-- An 80-character extraction candidate (end-to-end scenario D). -/
def shortCandidate : List Char := List.replicate 80 'a'

/-- An article DOM whose only strategy output is the 80-character body. -/
def soupShort : Soup :=
  { scriptText := [], hasIdRoot := false, hasIdApp := false, hasAppRootClass := false
    textContent := "aaaa".data, serializedLen := 8
    semanticTagsResult := some shortCandidate, commonClassesResult := none
    densityResult := none, textLengthResult := none
    titleResult := "T".data, authorResult := [] }

/-- An environment whose one discovered article has the 80-character body. -/
def envShort : ScrapeEnv :=
  { base_url := "https://e.com".data, cfgMaxArticles := 50
    fetchMain := some soupStatic, fetchJs := none, fetchPlaywright := none
    fallbackLinks := [], findLinks := fun _ => ["https://e.com/blog/x".data]
    fetchArticle := fun _ _ => some soupShort, hasDriver := false
    clickDiscovered := [], clickFetch := fun _ => none, clickRaises := false }

def goodUrl : List Char := "https://e.com/blog/a-b-c".data

/-- An environment whose one discovered article extracts successfully. -/
def envGood : ScrapeEnv :=
  { base_url := "https://e.com".data, cfgMaxArticles := 50
    fetchMain := some soupStatic, fetchJs := none, fetchPlaywright := none
    fallbackLinks := [], findLinks := fun _ => [goodUrl]
    fetchArticle := fun _ _ => some soupQual, hasDriver := false
    clickDiscovered := [], clickFetch := fun _ => none, clickRaises := false }

/-- The item `scrape envGood` emits. -/
def itemGood : ContentItem :=
  { title := "T".data, content := longContent, content_type := "blog"
    source_url := goodUrl, author := "A".data, user_id := [] }

/-- A main page classified `javascript_heavy` (density `0`). -/
def soupJsHeavy : Soup :=
  { scriptText := [], hasIdRoot := false, hasIdApp := false, hasAppRootClass := false
    textContent := [], serializedLen := 1
    semanticTagsResult := none, commonClassesResult := none, densityResult := none
    textLengthResult := none, titleResult := [], authorResult := [] }

/-- An environment where every browser-rendering backend fails and the
requests fallback finds one link whose title has 11 characters (the source's
fallback filter only requires `len(title) > 10`). -/
def envFallback : ScrapeEnv :=
  { base_url := "https://x.com".data, cfgMaxArticles := 50
    fetchMain := some soupJsHeavy, fetchJs := none, fetchPlaywright := none
    fallbackLinks := [{ title := "12345678901".data, url := "https://x.com/a".data }]
    findLinks := fun _ => [], fetchArticle := fun _ _ => none, hasDriver := false
    clickDiscovered := [], clickFetch := fun _ => none, clickRaises := false }

/-- A page whose script text contains "react" with density `1/2` and no SPA
markers — classified `framework_based`. -/
def soupReact : Soup :=
  { scriptText := "react".data, hasIdRoot := false, hasIdApp := false
    hasAppRootClass := false, textContent := "aaaa".data, serializedLen := 8
    semanticTagsResult := none, commonClassesResult := none, densityResult := none
    textLengthResult := none, titleResult := [], authorResult := [] }

/-- An article DOM for the click-discovery phase. -/
def soupClickArticle : Soup :=
  { scriptText := [], hasIdRoot := false, hasIdApp := false, hasAppRootClass := false
    textContent := [], serializedLen := 1
    semanticTagsResult := some longContent, commonClassesResult := none
    densityResult := none, textLengthResult := none
    titleResult := "T".data, authorResult := [] }

/-- A `framework_based` page on an allow-listed platform with one
click-discoverable article. -/
def envClickFw : ScrapeEnv :=
  { base_url := "https://foo.substack.com".data, cfgMaxArticles := 50
    fetchMain := some soupReact, fetchJs := some soupReact, fetchPlaywright := none
    fallbackLinks := [], findLinks := fun _ => []
    fetchArticle := fun _ _ => none, hasDriver := true
    clickDiscovered := [{ title := "A Long Enough Title".data
                          url := "https://foo.substack.com/p/x".data }]
    clickFetch := fun _ => some soupClickArticle, clickRaises := false }

/-! ## Helper lemmas -/

lemma firstQualityContent_sound {l : List (Option (List Char))} {s : List Char}
    (h : firstQualityContent l = some s) : s ≠ [] ∧ is_quality_content s = true := by
  induction l with
  | nil => simp [firstQualityContent] at h
  | cons o rest ih =>
    match o with
    | none => exact ih (by simpa [firstQualityContent] using h)
    | some c =>
      by_cases hc : c ≠ [] ∧ is_quality_content c
      · simp [firstQualityContent, hc] at h
        exact h ▸ hc
      · simp [firstQualityContent, hc] at h
        exact ih h

lemma is_quality_content_spec {s : List Char} (h : is_quality_content s = true) :
    s ≠ [] ∧ 100 ≤ (pyStrip s).length ∧
      ((s.filter (fun c => ¬ c ∈ mdSyntaxChars)).length : ℚ) / (s.length : ℚ) > 1/2 := by
  unfold is_quality_content at h
  split at h
  · exact absurd h (by simp)
  · next hcond =>
    push_neg at hcond
    refine ⟨hcond.1, by omega, ?_⟩
    have h' : mkRat 1 2 < mkRat ((s.filter (fun c => ¬ c ∈ mdSyntaxChars)).length : Int)
        (s.length) := by simpa using h
    rw [Rat.mkRat_eq_div, Rat.mkRat_eq_div] at h'
    push_cast at h'
    calc (1 : ℚ)/2 = 1/(2 : ℚ) := by norm_num
    _ < _ := h'

lemma scrape_article_floor {env : ScrapeEnv} {url : List Char} {useJs : Bool}
    {item : ContentItem} (h : scrape_article env url useJs = some item) :
    100 ≤ (pyStrip item.content).length := by
  unfold scrape_article at h
  split at h
  · exact absurd h (by simp)
  · split at h
    · exact absurd h (by simp)
    · next content _ =>
      split at h
      · exact absurd h (by simp)
      · next hcond =>
        push_neg at hcond
        have hco : item.content = content := by
          have := Option.some.inj h
          rw [← this]
        rw [hco]
        omega

lemma scrapeLoop_mem {env : ScrapeEnv} {useJs : Bool} {item : ContentItem} :
    ∀ {urls scraped : List (List Char)}, item ∈ scrapeLoop env useJs urls scraped →
      ∃ url, scrape_article env url useJs = some item := by
  intro urls
  induction urls with
  | nil => intro scraped h; simp [scrapeLoop] at h
  | cons url rest ih =>
    intro scraped h
    unfold scrapeLoop at h
    split at h
    · exact ih h
    · cases hs : scrape_article env url useJs with
      | none => rw [hs] at h; exact ih h
      | some it =>
        rw [hs] at h
        rcases List.mem_cons.mp h with rfl | h'
        · exact ⟨url, hs⟩
        · exact ih h'

lemma click_discovery_mem {env : ScrapeEnv} {item : ContentItem}
    (h : item ∈ scrape_with_click_discovery env) :
    100 ≤ (pyStrip item.content).length := by
  unfold scrape_with_click_discovery at h
  split at h
  · simp at h
  · obtain ⟨info, -, hf⟩ := List.mem_filterMap.mp h
    split at hf
    · exact absurd hf (by simp)
    · split at hf
      · exact absurd hf (by simp)
      · next content _ =>
        split at hf
        · next hcond =>
          have hco : item.content = content := by
            have := Option.some.inj hf
            rw [← this]
          rw [hco]
          omega
        · exact absurd hf (by simp)

lemma scrapeContinue_mem {env : ScrapeEnv} {architecture : ArchResult} {soup : Soup}
    {item : ContentItem} (h : item ∈ scrapeContinue env architecture soup) :
    100 ≤ (pyStrip item.content).length := by
  unfold scrapeContinue at h
  split at h
  · split at h
    · obtain ⟨url, hu⟩ := scrapeLoop_mem h
      exact scrape_article_floor hu
    · split at h
      · exact click_discovery_mem h
      · obtain ⟨url, hu⟩ := scrapeLoop_mem h
        exact scrape_article_floor hu
  · obtain ⟨url, hu⟩ := scrapeLoop_mem h
    exact scrape_article_floor hu

lemma scrape_mem_cases {env : ScrapeEnv} {item : ContentItem} (h : item ∈ scrape env) :
    100 ≤ (pyStrip item.content).length ∨
      ∃ li ∈ env.fallbackLinks, item = placeholderItem li := by
  unfold scrape at h
  split at h
  · simp at h
  · split at h
    · split at h
      · exact Or.inl (scrapeContinue_mem h)
      · split at h
        · exact Or.inl (scrapeContinue_mem h)
        · obtain ⟨li, hli, rfl⟩ := List.mem_map.mp h
          exact Or.inr ⟨li, hli, rfl⟩
    · exact Or.inl (scrapeContinue_mem h)

lemma backfillTotals_total {l : List Chunk} {c : Chunk} (h : c ∈ backfillTotals l) :
    c.total_chunks = (backfillTotals l).length := by
  obtain ⟨c', -, rfl⟩ := List.mem_map.mp h
  simp [backfillTotals]

lemma backfillTotals_indices (l : List Chunk) :
    (backfillTotals l).map (fun c => c.chunk_index) = l.map (fun c => c.chunk_index) := by
  simp [backfillTotals]

lemma backfillTotals_length (l : List Chunk) : (backfillTotals l).length = l.length := by
  simp [backfillTotals]

lemma backfillTotals_content (l : List Chunk) :
    (backfillTotals l).map (fun c => c.content) = l.map (fun c => c.content) := by
  simp [backfillTotals]

lemma sizeLoop_indices (text : List Char) (cs ov : Nat) :
    ∀ (fuel : Nat) (start : Int) (i : Nat),
      (sizeLoop text cs ov fuel start i).map (fun c => c.chunk_index) =
        List.range' i (sizeLoop text cs ov fuel start i).length := by
  intro fuel
  induction fuel with
  | zero => intro start i; simp [sizeLoop]
  | succ fuel ih =>
    intro start i
    rw [sizeLoop]
    split
    · split
      · simp only [List.map_cons, List.length_cons, ih]
        rfl
      · exact ih _ _
    · simp

lemma chapterSingles_spec (cs ov T : Nat) :
    ∀ (chs : List PyChapter) (n : Nat),
      (∀ ch ∈ chs, ¬ ch.content.length > cs * 2) →
      ((((List.enumFrom n chs).map fun p =>
          if p.2.content.length > cs * 2 then
            split_large_chapter cs ov p.2.content p.2.title p.1
          else
            [{ title := p.2.title, content := p.2.content, content_type := "book"
               chunk_index := p.1, total_chunks := T }]).flatten).map
          (fun c => c.chunk_index) = List.range' n chs.length) ∧
      (((List.enumFrom n chs).map fun p =>
          if p.2.content.length > cs * 2 then
            split_large_chapter cs ov p.2.content p.2.title p.1
          else
            [{ title := p.2.title, content := p.2.content, content_type := "book"
               chunk_index := p.1, total_chunks := T }]).flatten).length = chs.length := by
  intro chs
  induction chs with
  | nil => intro n h; simp
  | cons ch t ih =>
    intro n h
    have hch : ¬ ch.content.length > cs * 2 := h ch (List.mem_cons_self ch t)
    have iht := ih (n + 1) (fun x hx => h x (List.mem_cons_of_mem ch hx))
    simp only [List.enumFrom, List.map_cons, List.flatten_cons, if_neg hch,
      List.singleton_append, List.map_cons, List.length_cons, iht.1, iht.2]
    exact ⟨rfl, trivial⟩

lemma takeWhile_get? {p : Char → Bool} :
    ∀ (l : List Char) (i : Nat), i < (l.takeWhile p).length →
      ∃ c, l.get? i = some c ∧ p c = true := by
  intro l
  induction l with
  | nil => intro i h; simp [List.takeWhile] at h
  | cons c t ih =>
    intro i h
    rw [List.takeWhile_cons] at h
    by_cases hc : p c
    · rw [if_pos hc] at h
      cases i with
      | zero => exact ⟨c, rfl, hc⟩
      | succ j => exact ih j (by simpa using h)
    · rw [if_neg hc] at h
      simp at h

lemma get?_length_takeWhile {p : Char → Bool} :
    ∀ (l : List Char) (c : Char), l.get? (l.takeWhile p).length = some c → p c = false := by
  intro l
  induction l with
  | nil => intro c h; simp at h
  | cons x t ih =>
    intro c h
    rw [List.takeWhile_cons] at h
    by_cases hx : p x
    · rw [if_pos hx] at h
      exact ih c (by simpa using h)
    · rw [if_neg hx] at h
      simp at h
      rw [← h]
      simpa using hx

lemma sliceNat_get? (l : List Char) (a b i : Nat) (h : a + i < b) :
    (sliceNat l a b).get? i = l.get? (a + i) := by
  unfold sliceNat
  rw [List.get?_drop, List.get?_take_eq_if]
  rw [if_pos h]

lemma sliceNat_length (l : List Char) (a b : Nat) :
    (sliceNat l a b).length = min b l.length - a := by
  simp [sliceNat]

/-- A non-whitespace character at position `pp` lies inside the window that
`pyStrip` keeps. -/
lemma mem_strip_window {l : List Char} {pp : Nat} {c : Char}
    (hg : l.get? pp = some c) (hw : pyIsSpace c = false) :
    (l.takeWhile pyIsSpace).length ≤ pp ∧
      pp < l.length - (l.reverse.takeWhile pyIsSpace).length := by
  have hlen : pp < l.length := List.get?_eq_some.mp hg |>.1
  constructor
  · by_contra hlt
    push_neg at hlt
    obtain ⟨c', hg', hw'⟩ := takeWhile_get? l pp hlt
    rw [hg] at hg'
    obtain rfl := Option.some.inj hg'
    rw [hw'] at hw
    exact absurd hw (by simp)
  · by_contra hge
    push_neg at hge
    set t := (l.reverse.takeWhile pyIsSpace).length with ht
    have ht1 : 1 ≤ t := by omega
    have hq : l.length - 1 - pp < t := by omega
    obtain ⟨c', hg', hw'⟩ := takeWhile_get? l.reverse (l.length - 1 - pp) hq
    rw [List.get?_reverse (by omega)] at hg'
    have : l.length - 1 - (l.length - 1 - pp) = pp := by omega
    rw [this, hg] at hg'
    obtain rfl := Option.some.inj hg'
    rw [hw'] at hw
    exact absurd hw (by simp)

/-- If some position holds a non-whitespace character, the strip is
non-empty. -/
lemma pyStrip_ne_nil {l : List Char} {pp : Nat} {c : Char}
    (hg : l.get? pp = some c) (hw : pyIsSpace c = false) : pyStrip l ≠ [] := by
  obtain ⟨h1, h2⟩ := mem_strip_window hg hw
  have hlen : pp < l.length := List.get?_eq_some.mp hg |>.1
  unfold pyStrip
  intro hnil
  have := congrArg List.length hnil
  rw [sliceNat_length] at this
  simp at this
  omega

lemma takeWhile_eq_nil_of_head {p : Char → Bool} {l : List Char} {c : Char}
    (hg : l.get? 0 = some c) (hc : p c = false) : l.takeWhile p = [] := by
  cases l with
  | nil => rfl
  | cons x t =>
    obtain rfl : x = c := by simpa using hg
    simp [List.takeWhile_cons, hc]

lemma pyStrip_idem (l : List Char) : pyStrip (pyStrip l) = pyStrip l := by
  by_cases hnil : pyStrip l = []
  · rw [hnil]
    rfl
  · set lo := (l.takeWhile pyIsSpace).length with hlo
    set t := (l.reverse.takeWhile pyIsSpace).length with ht
    have hSlen : (pyStrip l).length = min (l.length - t) l.length - lo := by
      rw [pyStrip, sliceNat_length]
    have hmin : min (l.length - t) l.length = l.length - t := by omega
    rw [hmin] at hSlen
    have hpos : 0 < (pyStrip l).length := List.length_pos.mpr hnil
    have hlt : lo < l.length - t := by omega
    have htlen : t < l.length := by omega
    have hlolen : lo < l.length := by omega
    -- the head of the strip is the first non-whitespace character of `l`
    have hch : l.get? lo = some (l.get ⟨lo, hlolen⟩) := List.get?_eq_get hlolen
    set ch := l.get ⟨lo, hlolen⟩ with hchdef
    have hch' : pyIsSpace ch = false := get?_length_takeWhile l ch (by rw [← hlo]; exact hch)
    have hhead : (pyStrip l).get? 0 = some ch := by
      rw [pyStrip, sliceNat_get? l lo (l.length - t) 0 (by omega)]
      simpa using hch
    -- the last element of the strip is the last non-whitespace character of `l`
    have hlast1 : l.length - t - 1 < l.length := by omega
    have hcl : l.get? (l.length - t - 1) = some (l.get ⟨l.length - t - 1, hlast1⟩) :=
      List.get?_eq_get hlast1
    set cl := l.get ⟨l.length - t - 1, hlast1⟩ with hcldef
    have hcl' : pyIsSpace cl = false := by
      apply get?_length_takeWhile l.reverse
    -- reverse position t corresponds to original position l.length - 1 - t
      rw [List.get?_reverse (by omega), ← ht]
      have : l.length - 1 - t = l.length - t - 1 := by omega
      rw [this]
      exact hcl
    have hlast : (pyStrip l).reverse.get? 0 = some cl := by
      rw [List.get?_reverse (by rw [hSlen]; omega), hSlen]
      rw [pyStrip, sliceNat_get? l lo (l.length - t) (l.length - t - lo - 1 - 0) (by omega)]
      have : lo + (l.length - t - lo - 1 - 0) = l.length - t - 1 := by omega
      rw [this]
      exact hcl
    rw [pyStrip, takeWhile_eq_nil_of_head hhead hch', takeWhile_eq_nil_of_head hlast hcl']
    simp [sliceNat]

lemma splitLoop_content {content : List Char} {cs ov : Nat} {title : List Char} {chIdx : Nat} :
    ∀ (fuel : Nat) (start : Int) (partIdx : Nat) (c : Chunk),
      c ∈ splitLoop content cs ov title chIdx fuel start partIdx →
      c.content ≠ [] ∧ c.content = pyStrip c.content := by
  intro fuel
  induction fuel with
  | zero => intro start partIdx c hc; simp [splitLoop] at hc
  | succ fuel ih =>
    intro start partIdx c hc
    rw [splitLoop] at hc
    split at hc
    · split at hc
      · next hne =>
        rcases List.mem_cons.mp hc with rfl | hc'
        · exact ⟨hne, (pyStrip_idem _).symm⟩
        · exact ih _ _ _ hc'
      · exact ih _ _ _ hc
    · simp at hc

lemma sizeLoop_content {text : List Char} {cs ov : Nat} :
    ∀ (fuel : Nat) (start : Int) (chunkIdx : Nat) (c : Chunk),
      c ∈ sizeLoop text cs ov fuel start chunkIdx →
      c.content ≠ [] ∧ c.content = pyStrip c.content := by
  intro fuel
  induction fuel with
  | zero => intro start chunkIdx c hc; simp [sizeLoop] at hc
  | succ fuel ih =>
    intro start chunkIdx c hc
    rw [sizeLoop] at hc
    split at hc
    · split at hc
      · next hne =>
        rcases List.mem_cons.mp hc with rfl | hc'
        · exact ⟨hne, (pyStrip_idem _).symm⟩
        · exact ih _ _ _ hc'
      · exact ih _ _ _ hc
    · simp at hc

lemma backfillTotals_mem {l : List Chunk} {c : Chunk} (h : c ∈ backfillTotals l) :
    ∃ c' ∈ l, c.content = c'.content ∧ c.chunk_index = c'.chunk_index := by
  obtain ⟨c', hc', rfl⟩ := List.mem_map.mp h
  exact ⟨c', hc', rfl, rfl⟩

lemma collapseWsAux_mem : ∀ (prev : Bool) (l : List Char) (c : Char),
    c ∈ collapseWsAux prev l → c = ' ' ∨ pyIsSpace c = false := by
  intro prev l
  induction l generalizing prev with
  | nil => intro c hc; simp [collapseWsAux] at hc
  | cons x t ih =>
    intro c hc
    rw [collapseWsAux] at hc
    split at hc
    · split at hc
      · exact ih true c hc
      · rcases List.mem_cons.mp hc with rfl | hc'
        · exact Or.inl rfl
        · exact ih true c hc'
    · next hx =>
      rcases List.mem_cons.mp hc with rfl | hc'
      · exact Or.inr (by simpa using hx)
      · exact ih false c hc'

lemma sliceNat_subset (l : List Char) (a b : Nat) : ∀ c ∈ sliceNat l a b, c ∈ l := by
  intro c hc
  exact List.take_subset _ _ (List.drop_subset _ _ hc)

lemma newline_not_mem_cleanWs (t : List Char) : '\n' ∉ cleanWs t := by
  intro h
  have h1 : '\n' ∈ collapseWsAux false t := sliceNat_subset _ _ _ _ h
  rcases collapseWsAux_mem false t '\n' h1 with h2 | h2
  · exact absurd h2 (by decide)
  · exact absurd h2 (by decide)

lemma pyStrip_cleanWs (t : List Char) : pyStrip (cleanWs t) = cleanWs t :=
  pyStrip_idem _

lemma pyLowerChar_of_space {c : Char} (h : pyIsSpace c = true) : pyLowerChar c = c := by
  simp [pyIsSpace] at h
  rcases h with ((((rfl | rfl) | rfl) | rfl) | rfl) | rfl <;> decide

lemma not_space_of_lower_c {x : Char} (h : pyLowerChar x = 'c') : pyIsSpace x = false := by
  cases hsp : pyIsSpace x with
  | false => rfl
  | true =>
    exfalso
    rw [pyLowerChar_of_space hsp] at h
    subst h
    exact absurd hsp (by decide)

lemma not_space_of_digit {x : Char} (h : x.isDigit = true) : pyIsSpace x = false := by
  cases hsp : pyIsSpace x with
  | false => rfl
  | true =>
    exfalso
    simp [pyIsSpace] at hsp
    rcases hsp with ((((rfl | rfl) | rfl) | rfl) | rfl) | rfl <;> simp at h

lemma litCI_head {c₀ : Char} {lit l r : List Char} (h : litCI (c₀ :: lit) l = some r) :
    ∃ x xs, l = x :: xs ∧ pyLowerChar x = pyLowerChar c₀ := by
  cases l with
  | nil => simp [litCI] at h
  | cons x xs =>
    rw [litCI] at h
    split at h
    · next hx => exact ⟨x, xs, rfl, hx⟩
    · simp at h

lemma consumeSome_head {p : Char → Bool} {l r : List Char} (h : consumeSome p l = some r) :
    ∃ x xs, l = x :: xs ∧ p x = true := by
  cases l with
  | nil => simp [consumeSome, consumeWhile] at h
  | cons x xs =>
    by_cases hx : p x
    · exact ⟨x, xs, rfl, hx⟩
    · rw [consumeSome, consumeWhile] at h
      rw [if_neg hx] at h
      simp at h

lemma consumeOne_head {p : Char → Bool} {l r : List Char} (h : consumeOne p l = some r) :
    ∃ x xs, l = x :: xs ∧ p x = true := by
  cases l with
  | nil => simp [consumeOne] at h
  | cons x xs =>
    rw [consumeOne] at h
    split at h
    · next hx => exact ⟨x, xs, rfl, hx⟩
    · simp at h

/-- Every chapter-pattern match starts with a non-whitespace character or a
newline (patterns 7 and 8 begin with `\n`, the others with a letter or
digit). -/
lemma matcher_head : ∀ m ∈ chapterMatchers, ∀ (prev : Option Char) (l : List Char) (L : Nat),
    m prev l = some L → ∃ x xs, l = x :: xs ∧ (pyIsSpace x = false ∨ x = '\n') := by
  intro m hm prev l L hmatch
  simp only [chapterMatchers, List.mem_cons, List.not_mem_nil, or_false] at hm
  rcases hm with rfl | rfl | rfl | rfl | rfl | rfl | rfl | rfl
  · rw [chapMatch1] at hmatch
    split at hmatch
    · obtain ⟨r1, hr1, -⟩ := Option.bind_eq_some.mp hmatch
      obtain ⟨x, xs, rfl, hx⟩ := litCI_head hr1
      exact ⟨x, xs, rfl, Or.inl (not_space_of_lower_c hx)⟩
    · simp at hmatch
  · rw [chapMatch2] at hmatch
    split at hmatch
    · obtain ⟨r1, hr1, -⟩ := Option.bind_eq_some.mp hmatch
      obtain ⟨x, xs, rfl, hx⟩ := litCI_head hr1
      exact ⟨x, xs, rfl, Or.inl (not_space_of_lower_c hx)⟩
    · simp at hmatch
  · rw [chapMatch3] at hmatch
    split at hmatch
    · obtain ⟨r1, hr1, -⟩ := Option.bind_eq_some.mp hmatch
      obtain ⟨x, xs, rfl, hx⟩ := litCI_head hr1
      exact ⟨x, xs, rfl, Or.inl (not_space_of_lower_c hx)⟩
    · simp at hmatch
  · rw [chapMatch4] at hmatch
    split at hmatch
    · obtain ⟨r1, hr1, -⟩ := Option.bind_eq_some.mp hmatch
      obtain ⟨x, xs, rfl, hx⟩ := litCI_head hr1
      exact ⟨x, xs, rfl, Or.inl (not_space_of_lower_c hx)⟩
    · simp at hmatch
  · rw [chapMatch5] at hmatch
    split at hmatch
    · obtain ⟨r1, hr1, -⟩ := Option.bind_eq_some.mp hmatch
      obtain ⟨x, xs, rfl, hx⟩ := litCI_head hr1
      exact ⟨x, xs, rfl, Or.inl (not_space_of_lower_c hx)⟩
    · simp at hmatch
  · rw [chapMatch6] at hmatch
    split at hmatch
    · obtain ⟨r1, hr1, -⟩ := Option.bind_eq_some.mp hmatch
      obtain ⟨x, xs, rfl, hx⟩ := consumeSome_head hr1
      exact ⟨x, xs, rfl, Or.inl (not_space_of_digit hx)⟩
    · simp at hmatch
  · rw [chapMatch7] at hmatch
    obtain ⟨r1, hr1, -⟩ := Option.bind_eq_some.mp hmatch
    obtain ⟨x, xs, rfl, hx⟩ := consumeOne_head hr1
    exact ⟨x, xs, rfl, Or.inr (by simpa using hx)⟩
  · rw [chapMatch8] at hmatch
    obtain ⟨r1, hr1, -⟩ := Option.bind_eq_some.mp hmatch
    obtain ⟨x, xs, rfl, hx⟩ := consumeOne_head hr1
    exact ⟨x, xs, rfl, Or.inr (by simpa using hx)⟩

lemma finditerAux_mem_match {m : Option Char → List Char → Option Nat} :
    ∀ (fuel : Nat) (prev : Option Char) (pos : Nat) (l : List Char) (x : Nat),
      x ∈ finditerAux m fuel prev pos l →
      ∃ j prev' L, x = pos + j ∧ m prev' (l.drop j) = some L := by
  intro fuel
  induction fuel with
  | zero => intro prev pos l x hx; simp [finditerAux] at hx
  | succ fuel ih =>
    intro prev pos l x hx
    cases l with
    | nil => simp [finditerAux] at hx
    | cons c cs =>
      rw [finditerAux] at hx
      split at hx
      · next len hm =>
        rcases List.mem_cons.mp hx with rfl | hx'
        · exact ⟨0, prev, len, by omega, by simpa using hm⟩
        · obtain ⟨j, prev', L, rfl, hmj⟩ := ih _ _ _ _ hx'
          rw [List.drop_drop] at hmj
          exact ⟨max len 1 + j, prev', L, by omega, hmj⟩
      · next hm =>
        obtain ⟨j, prev', L, rfl, hmj⟩ := ih _ _ _ _ hx
        refine ⟨1 + j, prev', L, by omega, ?_⟩
        rw [show (c :: cs).drop (1 + j) = cs.drop j by simp [List.drop_succ_cons, Nat.add_comm]]
        exact hmj

lemma finditerAux_mem_bounds {m : Option Char → List Char → Option Nat} :
    ∀ (fuel : Nat) (prev : Option Char) (pos : Nat) (l : List Char) (x : Nat),
      x ∈ finditerAux m fuel prev pos l → pos ≤ x ∧ x < pos + l.length := by
  intro fuel
  induction fuel with
  | zero => intro prev pos l x hx; simp [finditerAux] at hx
  | succ fuel ih =>
    intro prev pos l x hx
    cases l with
    | nil => simp [finditerAux] at hx
    | cons c cs =>
      rw [finditerAux] at hx
      split at hx
      · next len hm =>
        rcases List.mem_cons.mp hx with rfl | hx'
        · simp
        · have hb := ih _ _ _ _ hx'
          rw [List.length_drop] at hb
          have hk1 : 1 ≤ max len 1 := Nat.le_max_right len 1
          by_cases hc : max len 1 ≤ (c :: cs).length
          · generalize hmax : max len 1 = k at hb hc hk1
            simp only [List.length_cons] at hb hc ⊢
            omega
          · have hnil : (c :: cs).drop (max len 1) = [] := List.drop_eq_nil_of_le (by omega)
            rw [hnil] at hx'
            cases fuel <;> simp [finditerAux] at hx'
      · have hb := ih _ _ _ _ hx
        simp only [List.length_cons]
        omega

lemma finditerAux_chain {m : Option Char → List Char → Option Nat} :
    ∀ (fuel : Nat) (prev : Option Char) (pos : Nat) (l : List Char),
      List.Chain' (· < ·) (finditerAux m fuel prev pos l) := by
  intro fuel
  induction fuel with
  | zero => intro prev pos l; simp [finditerAux]
  | succ fuel ih =>
    intro prev pos l
    cases l with
    | nil => simp [finditerAux]
    | cons c cs =>
      rw [finditerAux]
      split
      · next len hm =>
        rw [List.chain'_cons']
        refine ⟨fun y hy => ?_, ih _ _ _⟩
        have hb := finditerAux_mem_bounds fuel _ _ _ y (List.mem_of_mem_head? hy)
        omega
      · exact ih _ _ _

/-- The winning pattern's starts: either no pattern has two matches and the
result is `[]`, or the result is the finditer starts of some pattern in the
list. -/
lemma firstPatternStarts_cases (ms : List (Option Char → List Char → Option Nat))
    (text : List Char) :
    firstPatternStarts ms text = [] ∨
      ∃ m ∈ ms, firstPatternStarts ms text = finditerStarts m text := by
  induction ms with
  | nil => exact Or.inl rfl
  | cons m rest ih =>
    rw [firstPatternStarts]
    split
    · exact Or.inr ⟨m, List.mem_cons_self m rest, rfl⟩
    · rcases ih with h | ⟨m', hm', h⟩
      · exact Or.inl h
      · exact Or.inr ⟨m', List.mem_cons_of_mem m hm', h⟩

/-- Every chapter built over a strictly increasing, in-bounds start list has
content that is the strip of a window of the text beginning at a start
position. -/
lemma buildChapters_mem {text : List Char} :
    ∀ (starts : List Nat) (i : Nat) (ch : PyChapter),
      List.Chain' (· < ·) starts → (∀ s ∈ starts, s < text.length) →
      ch ∈ buildChapters text i starts →
      ∃ s e, s ∈ starts ∧ s < e ∧ e ≤ text.length ∧
        ch.content = pyStrip (sliceNat text s e) := by
  intro starts
  induction starts with
  | nil => intro i ch _ _ hch; simp [buildChapters] at hch
  | cons s rest ih =>
    intro i ch hchain hbound hch
    simp only [buildChapters] at hch
    rcases List.mem_cons.mp hch with rfl | hch'
    · refine ⟨s, match rest with | s' :: _ => s' | [] => text.length,
        List.mem_cons_self s rest, ?_, ?_, by cases rest <;> rfl⟩
      · cases rest with
        | nil => exact hbound s (List.mem_cons_self s _)
        | cons s' t =>
          have := List.chain'_cons.mp hchain
          exact this.1
      · cases rest with
        | nil => exact Nat.le_refl _
        | cons s' t =>
          exact Nat.le_of_lt (hbound s' (by simp))
    · obtain ⟨s', e, hs', he, hel, hcont⟩ := ih (i + 1) ch
        (List.Chain'.tail hchain) (fun x hx => hbound x (List.mem_cons_of_mem s hx)) hch'
      exact ⟨s', e, List.mem_cons_of_mem s hs', he, hel, hcont⟩

/-- Every chapter found in cleaned text has non-empty, already-stripped
content (each chapter window begins at a pattern-match position, and every
pattern's first character is non-whitespace — the newline-initial patterns
cannot match newline-free cleaned text). -/
lemma chapter_content_spec {t : List Char} {ch : PyChapter}
    (hch : ch ∈ find_chapter_boundaries (cleanWs t)) :
    ch.content ≠ [] ∧ ch.content = pyStrip ch.content := by
  rcases firstPatternStarts_cases chapterMatchers (cleanWs t) with hnil | ⟨m, hm, heq⟩
  · rw [find_chapter_boundaries, hnil] at hch
    simp [buildChapters] at hch
  · rw [find_chapter_boundaries, heq] at hch
    have hchain : List.Chain' (· < ·) (finditerStarts m (cleanWs t)) :=
      finditerAux_chain _ _ _ _
    have hbound : ∀ s ∈ finditerStarts m (cleanWs t), s < (cleanWs t).length := by
      intro s hs
      have := finditerAux_mem_bounds _ _ _ _ _ hs
      omega
    obtain ⟨s, e, hs, hse, hel, hcont⟩ := buildChapters_mem _ 0 ch hchain hbound hch
    obtain ⟨j, prev', L, hj, hmj⟩ := finditerAux_mem_match _ _ _ _ _ hs
    obtain rfl : s = j := by omega
    obtain ⟨x, xs, hdrop, hx⟩ := matcher_head m hm prev' _ L hmj
    have hgx : (cleanWs t).get? s = some x := by
      have h0 : ((cleanWs t).drop s).get? 0 = some x := by rw [hdrop]; rfl
      rw [List.get?_drop] at h0
      simpa using h0
    have hxw : pyIsSpace x = false := by
      rcases hx with hxw | rfl
      · exact hxw
      · exact absurd (List.get?_mem hgx) (newline_not_mem_cleanWs t)
    have hslice : (sliceNat (cleanWs t) s e).get? 0 = some x := by
      rw [sliceNat_get? _ s e 0 (by omega)]
      simpa using hgx
    refine ⟨?_, by rw [hcont, pyStrip_idem]⟩
    rw [hcont]
    exact pyStrip_ne_nil hslice hxw

/-- All chunks `chunk_text` emits on input whose cleaned form is non-empty
have non-empty, already-stripped content. -/
lemma chunk_text_content {cs ov : Nat} {text title : List Char}
    (hne : cleanWs text ≠ []) :
    ∀ c ∈ chunk_text cs ov text title, c.content ≠ [] ∧ c.content = pyStrip c.content := by
  intro c hc
  unfold chunk_text at hc
  split at hc
  · simp only [List.mem_singleton] at hc
    rw [hc]
    exact ⟨hne, (pyStrip_cleanWs text).symm⟩
  · split at hc
    · unfold process_chapter_chunks at hc
      obtain ⟨c', hc', hcont, -⟩ := backfillTotals_mem hc
      rw [hcont]
      obtain ⟨sub, hsub, hc'sub⟩ := List.mem_flatten.mp hc'
      obtain ⟨p, hp, rfl⟩ := List.mem_map.mp hsub
      split at hc'sub
      · exact splitLoop_content _ _ _ c' hc'sub
      · simp only [List.mem_singleton] at hc'sub
        rw [hc'sub]
        exact chapter_content_spec (List.snd_mem_of_mem_enum hp)
    · unfold size_based_chunking at hc
      obtain ⟨c', hc', hcont, -⟩ := backfillTotals_mem hc
      rw [hcont]
      exact sizeLoop_content _ _ _ c' hc'

/-! ## Coverage lemmas (claim C7) -/

lemma sliceNat_comp (l : List Char) (a b c d : Nat) :
    sliceNat (sliceNat l a b) c d = sliceNat l (a + c) (min (a + d) b) := by
  unfold sliceNat
  rw [List.take_drop, List.take_take, ← List.drop_drop]

lemma sliceNat_full (l : List Char) : sliceNat l 0 l.length = l := by
  simp [sliceNat]

lemma pySliceIdx_nonneg {len : Nat} {i : Int} (h : 0 ≤ i) :
    pySliceIdx len i = min i.toNat len := by
  unfold pySliceIdx
  rw [if_neg (by omega)]

lemma pySliceI_eq (l : List Char) (a b : Int) :
    pySliceI l a b = sliceNat l (pySliceIdx l.length a) (pySliceIdx l.length b) := rfl

lemma intRange_mem {a b i : Int} (h : i ∈ intRange a b) : a ≤ i ∧ i < b := by
  simp [intRange] at h
  obtain ⟨k, hk, rfl⟩ := h
  omega

lemma advanceStart_le (e : Int) (ov : Nat) : advanceStart e ov ≤ e := by
  unfold advanceStart
  split <;> omega

lemma advanceStart_ge (e : Int) (ov : Nat) : e - (ov : Int) ≤ advanceStart e ov := by
  unfold advanceStart
  split <;> omega

/-- Stripping a window of `l` around a non-whitespace position `p` yields a
(sub)window of `l` still containing `p`. -/
lemma strip_slice_window {l : List Char} {s e p : Nat} {c : Char}
    (hsp : s ≤ p) (hpe : p < e) (hg : l.get? p = some c) (hw : pyIsSpace c = false) :
    ∃ a b, a ≤ p ∧ p < b ∧ b ≤ e ∧ pyStrip (sliceNat l s e) = sliceNat l a b := by
  have hpl : p < l.length := (List.get?_eq_some.mp hg).1
  have hgX : (sliceNat l s e).get? (p - s) = some c := by
    rw [sliceNat_get? l s e (p - s) (by omega)]
    rw [show s + (p - s) = p by omega]
    exact hg
  obtain ⟨hA, hB⟩ := mem_strip_window hgX hw
  refine ⟨s + ((sliceNat l s e).takeWhile pyIsSpace).length,
    min (s + ((sliceNat l s e).length - ((sliceNat l s e).reverse.takeWhile pyIsSpace).length)) e,
    by omega, ?_, by omega, ?_⟩
  · have hlen : (sliceNat l s e).length = min e l.length - s := sliceNat_length l s e
    omega
  · rw [pyStrip, sliceNat_comp]

lemma rfindNN_none_of_no_newline {l : List Char} (h : '\n' ∉ l) (a b : Int) :
    rfindNN l a b = none := by
  unfold rfindNN
  have hfil : (List.range l.length).filter (fun i =>
      pySliceIdx l.length a ≤ i ∧ i + 2 ≤ pySliceIdx l.length b ∧
      l.get? i = some '\n' ∧ l.get? (i + 1) = some '\n') = [] := by
    rw [List.filter_eq_nil_iff]
    intro i _
    simp only [decide_eq_true_eq, not_and]
    intro _ _ hn _
    exact h (List.get?_mem hn)
  rw [hfil]
  rfl

lemma splitEnd_bound {content : List Char} (hnl : '\n' ∉ content) {start : Int}
    (hs : 0 ≤ start) :
    start + 901 ≤ splitEnd content 1000 start ∧
      splitEnd content 1000 start ≤ start + 1100 := by
  unfold splitEnd
  split
  · rw [rfindNN_none_of_no_newline hnl]
    simp only [Option.elim]
    rw [if_neg (by omega)]
    split
    · next i hf =>
      have hb := intRange_mem (List.mem_of_find?_eq_some hf)
      omega
    · omega
  · omega

lemma sizeEnd_bound (text : List Char) (start : Int) :
    start + 801 ≤ sizeEnd text 1000 200 start ∧
      sizeEnd text 1000 200 start ≤ start + 1200 := by
  unfold sizeEnd
  split
  · split
    · next i hf =>
      have hb := intRange_mem (List.mem_of_find?_eq_some hf)
      omega
    · omega
  · omega

/-- Every non-whitespace position of the chapter content at or beyond the
current loop position lies in some emitted sub-chunk, and that sub-chunk's
content is a window of the chapter content. -/
lemma splitLoop_coverage {content : List Char} (hnl : '\n' ∉ content)
    (title : List Char) (chIdx : Nat) :
    ∀ (fuel : Nat) (start : Int) (partIdx : Nat) (p : Nat) (c : Char),
      0 ≤ start → (content.length : Int) ≤ start + 701 * fuel →
      start ≤ (p : Int) →
      content.get? p = some c → pyIsSpace c = false →
      ∃ ch ∈ splitLoop content 1000 200 title chIdx fuel start partIdx,
        ∃ a b : Nat, a ≤ p ∧ p < b ∧ ch.content = sliceNat content a b := by
  intro fuel
  induction fuel with
  | zero =>
    intro start partIdx p c h0 hfuel hsp hg hw
    have hpl : p < content.length := (List.get?_eq_some.mp hg).1
    exfalso
    omega
  | succ fuel ih =>
    intro start partIdx p c h0 hfuel hsp hg hw
    have hpl : p < content.length := (List.get?_eq_some.mp hg).1
    have hlt : start < (content.length : Int) := by omega
    obtain ⟨he1, he2⟩ := splitEnd_bound hnl h0
    rw [splitLoop, if_pos hlt]
    set e := splitEnd content 1000 start with hedef
    by_cases hpe : (p : Int) < e
    · have hs'le : pySliceIdx content.length start ≤ p := by
        rw [pySliceIdx_nonneg h0]
        omega
      have hpe' : p < pySliceIdx content.length e := by
        rw [pySliceIdx_nonneg (by omega : (0:Int) ≤ e)]
        omega
      obtain ⟨a, b, hap, hpb, hbe, hstrip⟩ := strip_slice_window hs'le hpe' hg hw
      have hblen : b ≤ content.length := by
        rw [pySliceIdx_nonneg (by omega : (0:Int) ≤ e)] at hbe
        omega
      have hcontent : pyStrip (pySliceI content start e) = sliceNat content a b := by
        rw [pySliceI_eq]
        exact hstrip
      by_cases hem : pyStrip (pySliceI content start e) ≠ []
      · rw [if_pos hem]
        exact ⟨_, List.mem_cons_self _ _, a, b, hap, hpb, hcontent⟩
      · exfalso
        push_neg at hem
        rw [hcontent] at hem
        have := congrArg List.length hem
        rw [sliceNat_length] at this
        simp at this
        omega
    · push_neg at hpe
      have hadv := advanceStart_ge e 200
      have hadv' := advanceStart_le e 200
      have h0' : 0 ≤ advanceStart e 200 := by omega
      have hfuel' : (content.length : Int) ≤ advanceStart e 200 + 701 * fuel := by
        have hexp : start + 701 * (fuel + 1) = start + 701 + 701 * fuel := by ring
        omega
      have hsp' : advanceStart e 200 ≤ (p : Int) := by omega
      by_cases hem : pyStrip (pySliceI content start e) ≠ []
      · rw [if_pos hem]
        obtain ⟨ch, hch, a, b, h1, h2, h3⟩ :=
          ih (advanceStart e 200) (partIdx + 1) p c h0' hfuel' hsp' hg hw
        exact ⟨ch, List.mem_cons_of_mem _ hch, a, b, h1, h2, h3⟩
      · rw [if_neg hem]
        exact ih (advanceStart e 200) partIdx p c h0' hfuel' hsp' hg hw

/-- Analogue of `splitLoop_coverage` for the size-based loop. -/
lemma sizeLoop_coverage {text : List Char} :
    ∀ (fuel : Nat) (start : Int) (chunkIdx : Nat) (p : Nat) (c : Char),
      0 ≤ start → (text.length : Int) ≤ start + 601 * fuel →
      start ≤ (p : Int) →
      text.get? p = some c → pyIsSpace c = false →
      ∃ ch ∈ sizeLoop text 1000 200 fuel start chunkIdx,
        ∃ a b : Nat, a ≤ p ∧ p < b ∧ ch.content = sliceNat text a b := by
  intro fuel
  induction fuel with
  | zero =>
    intro start chunkIdx p c h0 hfuel hsp hg hw
    have hpl : p < text.length := (List.get?_eq_some.mp hg).1
    exfalso
    omega
  | succ fuel ih =>
    intro start chunkIdx p c h0 hfuel hsp hg hw
    have hpl : p < text.length := (List.get?_eq_some.mp hg).1
    have hlt : start < (text.length : Int) := by omega
    obtain ⟨he1, he2⟩ := sizeEnd_bound text start
    rw [sizeLoop, if_pos hlt]
    set e := sizeEnd text 1000 200 start with hedef
    by_cases hpe : (p : Int) < e
    · have hs'le : pySliceIdx text.length start ≤ p := by
        rw [pySliceIdx_nonneg h0]
        omega
      have hpe' : p < pySliceIdx text.length e := by
        rw [pySliceIdx_nonneg (by omega : (0:Int) ≤ e)]
        omega
      obtain ⟨a, b, hap, hpb, hbe, hstrip⟩ := strip_slice_window hs'le hpe' hg hw
      have hblen : b ≤ text.length := by
        rw [pySliceIdx_nonneg (by omega : (0:Int) ≤ e)] at hbe
        omega
      have hcontent : pyStrip (pySliceI text start e) = sliceNat text a b := by
        rw [pySliceI_eq]
        exact hstrip
      by_cases hem : pyStrip (pySliceI text start e) ≠ []
      · rw [if_pos hem]
        exact ⟨_, List.mem_cons_self _ _, a, b, hap, hpb, hcontent⟩
      · exfalso
        push_neg at hem
        rw [hcontent] at hem
        have := congrArg List.length hem
        rw [sliceNat_length] at this
        simp at this
        omega
    · push_neg at hpe
      have hadv := advanceStart_ge e 200
      have hadv' := advanceStart_le e 200
      have h0' : 0 ≤ advanceStart e 200 := by omega
      have hfuel' : (text.length : Int) ≤ advanceStart e 200 + 601 * fuel := by
        have hexp : start + 601 * (fuel + 1) = start + 601 + 601 * fuel := by ring
        omega
      have hsp' : advanceStart e 200 ≤ (p : Int) := by omega
      by_cases hem : pyStrip (pySliceI text start e) ≠ []
      · rw [if_pos hem]
        obtain ⟨ch, hch, a, b, h1, h2, h3⟩ :=
          ih (advanceStart e 200) (chunkIdx + 1) p c h0' hfuel' hsp' hg hw
        exact ⟨ch, List.mem_cons_of_mem _ hch, a, b, h1, h2, h3⟩
      · rw [if_neg hem]
        exact ih (advanceStart e 200) chunkIdx p c h0' hfuel' hsp' hg hw

/-- Every position at or beyond the first chapter start lies in some built
chapter's window. -/
lemma chapterWindows_cover {text : List Char} :
    ∀ (rest : List Nat) (s : Nat) (i : Nat) (p : Nat),
      (∀ x ∈ s :: rest, x < text.length) →
      p < text.length → s ≤ p →
      ∃ ch ∈ buildChapters text i (s :: rest), ∃ a e, a ≤ p ∧ p < e ∧
        e ≤ text.length ∧ ch.content = pyStrip (sliceNat text a e) := by
  intro rest
  induction rest with
  | nil =>
    intro s i p _ hpl hsp
    refine ⟨_, List.mem_cons_self _ _, s, text.length, hsp, hpl, Nat.le_refl _, ?_⟩
    simp only [buildChapters]
  | cons s' rest' ih =>
    intro s i p hbound hpl hsp
    by_cases hps' : p < s'
    · refine ⟨_, List.mem_cons_self _ _, s, s', hsp, hps',
        Nat.le_of_lt (hbound s' (by simp)), ?_⟩
      simp only [buildChapters]
    · push_neg at hps'
      obtain ⟨ch, hch, a, e, h1, h2, h3, h4⟩ := ih s' (i + 1) p
        (fun x hx => hbound x (List.mem_cons_of_mem s hx)) hpl hps'
      exact ⟨ch, List.mem_cons_of_mem _ hch, a, e, h1, h2, h3, h4⟩

/-- Membership transfer into `process_chapter_chunks`: any chunk produced for
an enumerated chapter survives (with its content) into the back-filled
result. -/
lemma process_chapter_chunks_mem_of {cs ov : Nat} {chapters : List PyChapter}
    {j : Nat} {ch : PyChapter} {sub : Chunk}
    (hj : (j, ch) ∈ chapters.enum)
    (hsub : sub ∈ (if ch.content.length > cs * 2 then
        split_large_chapter cs ov ch.content ch.title j
      else [{ title := ch.title, content := ch.content, content_type := "book"
              chunk_index := j, total_chunks := chapters.length }])) :
    ∃ k ∈ process_chapter_chunks cs ov chapters, k.content = sub.content := by
  unfold process_chapter_chunks backfillTotals
  refine ⟨_, List.mem_map_of_mem _ (List.mem_flatten.mpr
    ⟨_, List.mem_map_of_mem _ hj, hsub⟩), rfl⟩

/-- Coverage glue for the chapter path: a position lying in some chapter's
window is covered by an emitted chunk of `_process_chapter_chunks`. -/
lemma process_chapter_chunks_coverage {ct : List Char} {chapters : List PyChapter}
    {ch : PyChapter} (hch : ch ∈ chapters) {s e p : Nat} {c : Char}
    (hnl : '\n' ∉ ct)
    (hse : ch.content = pyStrip (sliceNat ct s e))
    (hsp : s ≤ p) (hpe : p < e) (_hel : e ≤ ct.length)
    (hg : ct.get? p = some c) (hw : pyIsSpace c = false) :
    ∃ k ∈ process_chapter_chunks 1000 200 chapters,
      ∃ a b : Nat, a ≤ p ∧ p < b ∧ k.content = sliceNat ct a b := by
  obtain ⟨a₀, b₀, hap0, hpb0, hbe0, hstrip⟩ := strip_slice_window hsp hpe hg hw
  have hcont0 : ch.content = sliceNat ct a₀ b₀ := by rw [hse, hstrip]
  obtain ⟨j, hjget⟩ := List.get?_of_mem hch
  have hj : (j, ch) ∈ chapters.enum := List.mk_mem_enum_iff_get?.mpr hjget
  have hgq : ch.content.get? (p - a₀) = some c := by
    rw [hcont0, sliceNat_get? ct a₀ b₀ (p - a₀) (by omega)]
    rw [show a₀ + (p - a₀) = p by omega]
    exact hg
  by_cases hbig : ch.content.length > 1000 * 2
  · have hnl' : '\n' ∉ ch.content := by
      rw [hcont0]
      intro hmem
      exact hnl (sliceNat_subset ct a₀ b₀ '\n' hmem)
    obtain ⟨sub, hsub, a₁, b₁, ha1, hb1, hc1⟩ :=
      splitLoop_coverage hnl' ch.title j (ch.content.length + 1) 0 1 (p - a₀) c
        (by omega) (by push_cast; omega) (by omega) hgq hw
    have hsub' : sub ∈ (if ch.content.length > 1000 * 2 then
        split_large_chapter 1000 200 ch.content ch.title j
      else [{ title := ch.title, content := ch.content,
              content_type := "book", chunk_index := j,
              total_chunks := chapters.length }]) := by
      rw [if_pos hbig]
      exact hsub
    obtain ⟨k, hk, hkc⟩ := process_chapter_chunks_mem_of hj hsub'
    refine ⟨k, hk, a₀ + a₁, min (a₀ + b₁) b₀, by omega, by omega, ?_⟩
    rw [hkc, hc1, hcont0, sliceNat_comp]
  · have hsub' : ({ title := ch.title, content := ch.content,
                    content_type := "book", chunk_index := j,
                    total_chunks := chapters.length } : Chunk) ∈
        (if ch.content.length > 1000 * 2 then
          split_large_chapter 1000 200 ch.content ch.title j
        else [{ title := ch.title, content := ch.content,
                content_type := "book", chunk_index := j,
                total_chunks := chapters.length }]) := by
      rw [if_neg hbig]
      exact List.mem_singleton.mpr rfl
    obtain ⟨k, hk, hkc⟩ := process_chapter_chunks_mem_of hj hsub'
    refine ⟨k, hk, a₀, b₀, hap0, hpb0, ?_⟩
    rw [hkc]
    exact hcont0

/-! ## Claim theorems -/

/-- Claim C2: `detect_architecture` applies its decision rule in exactly this
order — `javascript_heavy` iff the content density is below `0.02` or an SPA
marker is present; otherwise `framework_based` iff some framework flag
(case-insensitive script-text match) is set; otherwise `static_html`; and in
particular a page whose script text contains "react" with content density
`0.5` and no SPA marker is classified `framework_based`, not
`javascript_heavy`. -/
theorem detect_architecture_decision_order (soup : Soup) (url : List Char) :
    ((detect_architecture soup url).strategy = "javascript_heavy" ↔
      ((detect_architecture soup url).content_density < mkRat 2 100 ∨
        (soup.hasIdRoot || soup.hasIdApp || soup.hasAppRootClass) = true)) ∧
    ((detect_architecture soup url).strategy = "framework_based" ↔
      (¬ ((detect_architecture soup url).content_density < mkRat 2 100 ∨
          (soup.hasIdRoot || soup.hasIdApp || soup.hasAppRootClass) = true) ∧
        (containsCI soup.scriptText "react".data ∨ containsCI soup.scriptText "vue".data ∨
          containsCI soup.scriptText "angular".data ∨ containsCI soup.scriptText "next".data))) ∧
    ((detect_architecture soup url).strategy = "static_html" ↔
      (¬ ((detect_architecture soup url).content_density < mkRat 2 100 ∨
          (soup.hasIdRoot || soup.hasIdApp || soup.hasAppRootClass) = true) ∧
        ¬ (containsCI soup.scriptText "react".data ∨ containsCI soup.scriptText "vue".data ∨
          containsCI soup.scriptText "angular".data ∨ containsCI soup.scriptText "next".data))) ∧
    (containsCI soup.scriptText "react".data = true →
      (detect_architecture soup url).content_density = mkRat 1 2 →
      (soup.hasIdRoot || soup.hasIdApp || soup.hasAppRootClass) = false →
      (detect_architecture soup url).strategy = "framework_based") := by
  simp only [detect_architecture]
  split_ifs with h1 h2
  · refine ⟨⟨fun _ => h1, fun _ => rfl⟩,
      ⟨fun hs => absurd hs (by decide), fun hc => absurd h1 hc.1⟩,
      ⟨fun hs => absurd hs (by decide), fun hc => absurd h1 hc.1⟩, ?_⟩
    intro _ hd hspa
    exfalso
    rcases h1 with h | h
    · rw [hd] at h
      exact absurd h (by decide)
    · rw [hspa] at h
      simp at h
  · refine ⟨⟨fun hs => absurd hs (by decide), fun hc => absurd hc h1⟩,
      ⟨fun _ => ⟨h1, h2⟩, fun _ => rfl⟩,
      ⟨fun hs => absurd hs (by decide), fun hc => absurd h2 hc.2⟩,
      fun _ _ _ => rfl⟩
  · refine ⟨⟨fun hs => absurd hs (by decide), fun hc => absurd hc h1⟩,
      ⟨fun hs => absurd hs (by decide), fun hc => absurd hc.2 h2⟩,
      ⟨fun _ => ⟨h1, h2⟩, fun _ => rfl⟩, ?_⟩
    intro hr _ _
    exact absurd (Or.inl hr) h2

/-- Witness for C2: the scenario-C page (`soupFw`) satisfies the hypotheses
concretely and is classified `framework_based`. -/
theorem detect_architecture_decision_order_witness :
    containsCI soupFw.scriptText "react".data = true ∧
    (detect_architecture soupFw [] ).content_density = mkRat 1 2 ∧
    (soupFw.hasIdRoot || soupFw.hasIdApp || soupFw.hasAppRootClass) = false ∧
    (detect_architecture soupFw [] ).strategy = "framework_based" := by
  refine ⟨by decide, by decide, by decide, ?_⟩
  exact (detect_architecture_decision_order soupFw []).2.2.2 (by decide) (by decide) (by decide)

/-- Claim C3: `extract_main_content` returns either `None` or a string that
passes the quality gate — non-empty after trimming, trimmed length at least
100, and the markdown-stripped-to-raw ratio strictly above `0.5`; it never
returns a string failing any of these conditions. -/
theorem extract_main_content_quality_gate (soup : Soup) (s : List Char)
    (h : extract_main_content soup = some s) :
    s ≠ [] ∧ pyStrip s ≠ [] ∧ 100 ≤ (pyStrip s).length ∧
      ((s.filter (fun c => ¬ c ∈ mdSyntaxChars)).length : ℚ) / (s.length : ℚ) > 1/2 ∧
      is_quality_content s = true := by
  have h1 := @firstQualityContent_sound (contentStrategies soup) s h
  have h2 := is_quality_content_spec h1.2
  refine ⟨h1.1, ?_, h2.2.1, h2.2.2, h1.2⟩
  intro hne
  rw [hne] at h2
  simp at h2

set_option maxRecDepth 8000 in
/-- Witness for C3: a DOM whose first strategy yields a 120-character quality
candidate; `extract_main_content` returns it and the gate conditions hold. -/
theorem extract_main_content_quality_gate_witness :
    extract_main_content soupQual = some longContent ∧
    (longContent ≠ [] ∧ pyStrip longContent ≠ [] ∧ 100 ≤ (pyStrip longContent).length ∧
      ((longContent.filter (fun c => ¬ c ∈ mdSyntaxChars)).length : ℚ) /
        (longContent.length : ℚ) > 1/2 ∧
      is_quality_content longContent = true) :=
  ⟨by decide, extract_main_content_quality_gate soupQual longContent (by decide)⟩

/-- Claim C4: `_is_likely_article_url` is a pure function of the URL string
accepting exactly when some positive indicator (fixed path segment, year-path
pattern, or modern slug / ID pattern) is present and no negative indicator
is; concretely, `.../blog/my-post` and `.../2024/my-post` are accepted while
`.../login` and `.../tag/python` are rejected. -/
theorem is_likely_article_url_spec :
    (∀ url : List Char, is_likely_article_url url = true ↔
      ((has_article_indicator url = true ∨ has_date url = true ∨
          has_modern_pattern url = true) ∧ has_avoid_pattern url = false)) ∧
    is_likely_article_url "https://example.com/blog/my-post".data = true ∧
    is_likely_article_url "https://example.com/login".data = false ∧
    is_likely_article_url "https://example.com/2024/my-post".data = true ∧
    is_likely_article_url "https://example.com/tag/python".data = false := by
  refine ⟨fun url => ?_, by decide, by decide, by decide, by decide⟩
  simp only [is_likely_article_url, Bool.and_eq_true, Bool.or_eq_true, Bool.not_eq_true']
  tauto

set_option maxHeartbeats 2000000 in
/-- Claim C9: `detect_content_type` is total and always returns a member of
the content-type enum — one of `linkedin_post`, `blog`, `reddit_comment`,
`podcast_transcript`, `call_transcript` — never `book`; a URL / title /
content triple with no platform or transcript indicator gets the default
`blog`. -/
theorem detect_content_type_enum (url title content : List Char) :
    (detect_content_type url title content = "linkedin_post" ∨
      detect_content_type url title content = "blog" ∨
      detect_content_type url title content = "reddit_comment" ∨
      detect_content_type url title content = "podcast_transcript" ∨
      detect_content_type url title content = "call_transcript") ∧
    detect_content_type url title content ≠ "book" ∧
    detect_content_type "https://example.com/a".data "My Title".data
      "Plain body text".data = "blog" := by
  refine ⟨?_, ?_, by decide⟩ <;>
    · simp only [detect_content_type]
      split_ifs <;> decide

lemma is_quality_content_short {s : List Char} (h : (pyStrip s).length < 100) :
    is_quality_content s = false := by
  unfold is_quality_content
  rw [if_pos (Or.inr h)]

/-- Claim C1 (amended): every `ContentItem` produced through article
extraction has content of stripped length at least 100 — `_scrape_article`
returns `None` for anything shorter (in particular for a DOM whose only
extraction candidate is shorter than 100 characters, scenario D) — but the
requests-fallback branch of `scrape`, reached when every browser backend
fails, emits placeholder items whose content may be shorter; so every item a
scrape emits either meets the 100-character floor or is one of those
documented placeholders. -/
theorem scrape_content_floor_amended :
    (∀ (env : ScrapeEnv) (url : List Char) (useJs : Bool) (item : ContentItem),
      scrape_article env url useJs = some item → 100 ≤ (pyStrip item.content).length) ∧
    (∀ (env : ScrapeEnv) (url : List Char) (useJs : Bool) (soup : Soup) (s : List Char),
      env.fetchArticle url useJs = some soup →
      soup.semanticTagsResult = some s → (pyStrip s).length < 100 →
      soup.commonClassesResult = none → soup.densityResult = none →
      soup.textLengthResult = none →
      scrape_article env url useJs = none) ∧
    (∀ (env : ScrapeEnv) (item : ContentItem), item ∈ scrape env →
      100 ≤ (pyStrip item.content).length ∨
        ∃ li ∈ env.fallbackLinks, item = placeholderItem li) := by
  refine ⟨fun env url useJs item h => scrape_article_floor h, ?_, fun env item h => scrape_mem_cases h⟩
  intro env url useJs soup s hf hsem hshort hcc hd htl
  have hx : extract_main_content soup = none := by
    unfold extract_main_content contentStrategies
    rw [hsem, hcc, hd, htl]
    simp [firstQualityContent, is_quality_content_short hshort]
  simp only [scrape_article, hf, hx]

set_option maxRecDepth 8000 in
/-- Witness for C1 (amended): the 80-character article yields no item, and
the item the good environment emits satisfies the floor disjunction. -/
theorem scrape_content_floor_amended_witness :
    scrape_article envShort "https://e.com/blog/x".data false = none ∧
    (100 ≤ (pyStrip itemGood.content).length ∨
      ∃ li ∈ envGood.fallbackLinks, itemGood = placeholderItem li) :=
  ⟨scrape_content_floor_amended.2.1 envShort "https://e.com/blog/x".data false
      soupShort shortCandidate (by decide) (by decide) (by decide) (by decide)
      (by decide) (by decide),
   scrape_content_floor_amended.2.2 envGood itemGood (by decide)⟩

/-- Counterexample for C1 as stated: when all rendering backends fail, the
requests-fallback branch of `scrape` emits a placeholder `ContentItem` whose
content is 87 characters — shorter than the claimed 100-character floor. -/
theorem scrape_emits_short_content_cex :
    ∃ item ∈ scrape envFallback,
      item.content.length < 100 ∧ (pyStrip item.content).length < 100 := by decide

/-- Claim C8 (amended): click discovery is attempted exactly when the
classified architecture needs browser rendering — `javascript_heavy` OR
`framework_based`, not JS-heavy only — and the base URL contains one of the
allow-list substrings; whenever it yields at least one article, its result
list is returned as the source's entire output, replacing the pattern-based
results; when the allow-list does not match (or rendering is not needed) the
pattern loop's results are used instead. -/
theorem click_discovery_gating_amended :
    (∀ (env : ScrapeEnv) (soup0 soupJ : Soup),
      env.fetchMain = some soup0 →
      (detect_architecture soup0 env.base_url).needs_js = true →
      env.fetchJs = some soupJ →
      should_use_click_discovery env.base_url = true →
      env.clickRaises = false →
      0 < (scrape_with_click_discovery env).length →
      scrape env = scrape_with_click_discovery env) ∧
    (∀ (env : ScrapeEnv) (soup0 soupJ : Soup),
      env.fetchMain = some soup0 →
      (detect_architecture soup0 env.base_url).needs_js = true →
      env.fetchJs = some soupJ →
      should_use_click_discovery env.base_url = false →
      scrape env = scrapeLoop env (detect_architecture soup0 env.base_url).needs_js
        ((env.findLinks soupJ).take env.cfgMaxArticles) []) ∧
    (∀ (env : ScrapeEnv) (soup0 : Soup),
      env.fetchMain = some soup0 →
      (detect_architecture soup0 env.base_url).needs_js = false →
      scrape env = scrapeLoop env (detect_architecture soup0 env.base_url).needs_js
        ((env.findLinks soup0).take env.cfgMaxArticles) []) := by
  refine ⟨?_, ?_, ?_⟩
  · intro env soup0 soupJ hm hjs hfj hsu hraise hlen
    unfold scrape
    rw [hm]
    simp only [hjs, if_true, hfj]
    unfold scrapeContinue
    rw [if_pos ⟨hjs, hsu⟩, if_neg (by simp [hraise]), if_pos hlen]
  · intro env soup0 soupJ hm hjs hfj hsu
    unfold scrape
    rw [hm]
    simp only [hjs, if_true, hfj]
    unfold scrapeContinue
    rw [if_neg (by simp [hsu]), hjs]
  · intro env soup0 hm hjs
    unfold scrape
    rw [hm]
    simp only [hjs, Bool.false_eq_true, if_false]
    unfold scrapeContinue
    rw [if_neg (by simp [hjs]), hjs]

set_option maxRecDepth 8000 in
/-- Witness for C8 (amended): on an allow-listed `framework_based` page whose
click discovery finds one article, `scrape` returns exactly the click
results. -/
theorem click_discovery_gating_amended_witness :
    scrape envClickFw = scrape_with_click_discovery envClickFw :=
  click_discovery_gating_amended.1 envClickFw soupReact soupReact (by decide)
    (by decide) (by decide) (by decide) (by decide) (by decide)

set_option maxRecDepth 8000 in
/-- Counterexample for C8 as stated: the architecture here is classified
`framework_based`, not JS-heavy, yet click discovery runs (its non-empty
result replaces the — empty — pattern results), refuting "only when the
classified architecture is JS-heavy". -/
theorem click_discovery_on_framework_based_cex :
    (detect_architecture soupReact envClickFw.base_url).strategy = "framework_based" ∧
    (detect_architecture soupReact envClickFw.base_url).strategy ≠ "javascript_heavy" ∧
    scrape envClickFw = scrape_with_click_discovery envClickFw ∧
    scrape_with_click_discovery envClickFw ≠ [] ∧
    scrape envClickFw ≠
      scrapeLoop envClickFw true
        ((envClickFw.findLinks soupReact).take envClickFw.cfgMaxArticles) [] := by decide

/-- Claim C5 (amended): `total_chunks` is identical on every chunk of a
document and equals the final emitted count, on every path; and the
`chunk_index` values are the contiguous 0-based positions `0, 1, …` provided
no chapter exceeds `2 × chunk_size` — when a chapter is sub-split, all its
sub-chunks repeat the parent chapter's index, so contiguity fails. -/
theorem chunk_index_contiguity_amended (cs ov : Nat) (text title : List Char) :
    (∀ c ∈ chunk_text cs ov text title,
      c.total_chunks = (chunk_text cs ov text title).length) ∧
    ((∀ ch ∈ find_chapter_boundaries (cleanWs text), ch.content.length ≤ cs * 2) →
      (chunk_text cs ov text title).map (fun c => c.chunk_index) =
        List.range (chunk_text cs ov text title).length) := by
  by_cases h1 : (cleanWs text).length ≤ cs
  · constructor
    · intro c hc
      unfold chunk_text at hc ⊢
      rw [if_pos h1] at hc ⊢
      simp only [List.mem_singleton] at hc
      rw [hc]
      rfl
    · intro _
      unfold chunk_text
      rw [if_pos h1]
      rfl
  · by_cases h2 : find_chapter_boundaries (cleanWs text) ≠ []
    · constructor
      · intro c hc
        unfold chunk_text at hc ⊢
        rw [if_neg h1, if_pos h2] at hc ⊢
        unfold process_chapter_chunks at hc ⊢
        exact backfillTotals_total hc
      · intro hns
        unfold chunk_text
        rw [if_neg h1, if_pos h2]
        unfold process_chapter_chunks
        rw [backfillTotals_indices, backfillTotals_length,
          show (find_chapter_boundaries (cleanWs text)).enum =
            List.enumFrom 0 (find_chapter_boundaries (cleanWs text)) from rfl]
        have h := chapterSingles_spec cs ov (find_chapter_boundaries (cleanWs text)).length
          (find_chapter_boundaries (cleanWs text)) 0
          (fun ch hch => by have := hns ch hch; omega)
        rw [List.range_eq_range', h.2]
        exact h.1
    · constructor
      · intro c hc
        unfold chunk_text at hc ⊢
        rw [if_neg h1, if_neg h2] at hc ⊢
        unfold size_based_chunking at hc ⊢
        exact backfillTotals_total hc
      · intro _
        unfold chunk_text
        rw [if_neg h1, if_neg h2]
        unfold size_based_chunking
        rw [backfillTotals_indices, backfillTotals_length, List.range_eq_range']
        exact sizeLoop_indices (cleanWs text) cs ov _ 0 0

/-- A cleaned document with two chapter markers whose first chapter (251
characters) exceeds `2 × chunk_size` for `chunk_size = 100`. -/
def splitChapterText : List Char :=
  "Chapter 1. ".data ++ List.replicate 240 'a' ++ " Chapter 2. bbbb".data

/-- A cleaned document with two small chapters (no sub-splitting at
`chunk_size = 50`). -/
def twoChapterSmall : List Char :=
  "Chapter 1. aaaa bbbb cccc dddd. Chapter 2. eeee ffff.".data

/-- Witness for C5 (amended): a two-chapter document with no over-long
chapter gets contiguous indices `[0, 1]` and correct totals. -/
theorem chunk_index_contiguity_amended_witness :
    (∀ c ∈ chunk_text 50 10 twoChapterSmall "T".data,
      c.total_chunks = (chunk_text 50 10 twoChapterSmall "T".data).length) ∧
    (chunk_text 50 10 twoChapterSmall "T".data).map (fun c => c.chunk_index) =
      List.range (chunk_text 50 10 twoChapterSmall "T".data).length :=
  ⟨(chunk_index_contiguity_amended 50 10 twoChapterSmall "T".data).1,
   (chunk_index_contiguity_amended 50 10 twoChapterSmall "T".data).2 (by decide)⟩

set_option maxRecDepth 8000 in
/-- Counterexample for C5 as stated: with `chunk_size = 100` and
`chunk_overlap = 0`, the 267-character two-chapter document whose first
chapter is 251 characters long is split into four sub-chunks that all carry
`chunk_index = 0`, so the emitted indices are `[0, 0, 0, 0, 1]` — repeated,
not contiguous (`total_chunks = 5` is still correct on every chunk). -/
theorem chunk_index_repeats_on_split_chapter_cex :
    (chunk_text 100 0 splitChapterText []).map (fun c => c.chunk_index) = [0, 0, 0, 0, 1] ∧
    (chunk_text 100 0 splitChapterText []).length = 5 ∧
    ¬ ((chunk_text 100 0 splitChapterText []).map (fun c => c.chunk_index) =
        List.range (chunk_text 100 0 splitChapterText []).length) := by decide

/-- Claim C10 (amended): both the large-chapter splitting loop and the
size-based loop skip candidate chunks whose stripped content is empty rather
than emit them (every emitted chunk's content is non-empty and already
stripped, hence not whitespace-only), and in the size-based path the
`chunk_index` counter advances only on emission so its indices stay
contiguous; `chunk_text` as a whole never emits an empty or whitespace-only
chunk provided the cleaned input text is non-empty — but on whitespace-only
input its single-complete-chunk path does emit one chunk with empty
content. -/
theorem chunk_text_nonempty_amended (cs ov : Nat)
    (text title content ctitle : List Char) (chIdx : Nat) :
    (∀ c ∈ split_large_chapter cs ov content ctitle chIdx,
      c.content ≠ [] ∧ c.content = pyStrip c.content) ∧
    (∀ c ∈ size_based_chunking cs ov text title,
      c.content ≠ [] ∧ c.content = pyStrip c.content) ∧
    ((size_based_chunking cs ov text title).map (fun c => c.chunk_index) =
      List.range (size_based_chunking cs ov text title).length) ∧
    (cleanWs text ≠ [] → ∀ c ∈ chunk_text cs ov text title,
      c.content ≠ [] ∧ c.content = pyStrip c.content) := by
  refine ⟨?_, ?_, ?_, fun hne => chunk_text_content hne⟩
  · intro c hc
    exact splitLoop_content _ _ _ c hc
  · intro c hc
    unfold size_based_chunking at hc
    obtain ⟨c', hc', hcont, -⟩ := backfillTotals_mem hc
    rw [hcont]
    exact sizeLoop_content _ _ _ c' hc'
  · unfold size_based_chunking
    rw [backfillTotals_indices, backfillTotals_length, List.range_eq_range']
    exact sizeLoop_indices text cs ov _ 0 0

/-- The first chunk emitted for the small two-chapter document. -/
def chunkW : Chunk :=
  (chunk_text 50 10 twoChapterSmall "T".data).headD
    { title := [], content := [], content_type := "", chunk_index := 0, total_chunks := 0 }

/-- Witness for C10 (amended): a concrete emitted chunk is non-empty and
stripped. -/
theorem chunk_text_nonempty_amended_witness :
    chunkW.content ≠ [] ∧ chunkW.content = pyStrip chunkW.content :=
  (chunk_text_nonempty_amended 50 10 twoChapterSmall "T".data [] [] 0).2.2.2
    (by decide) chunkW (by decide)

/-- Counterexample for C10 as stated: on whitespace-only input the cleaned
text is empty, yet `chunk_text` emits one chunk — with empty content. -/
theorem chunk_text_empty_chunk_cex :
    ∃ c ∈ chunk_text 1000 200 "   ".data "T".data, c.content = [] := by decide

lemma firstPatternStarts_cons (m : Option Char → List Char → Option Nat)
    (ms : List (Option Char → List Char → Option Nat)) (text : List Char) :
    firstPatternStarts (m :: ms) text =
      if (finditerStarts m text).length ≥ 2 then finditerStarts m text
      else firstPatternStarts ms text := rfl

/-- Claim C6: for a cleaned text of 3000 characters in which the first
chapter pattern (`Chapter \d+` marker) matches exactly twice, `chunk_text`
with `chunk_size = 1000` takes the chapter-boundary path — the two match
starts partition the text, the last chapter running to the end — and,
provided each (stripped) chapter span is at most `2 × chunk_size`, produces
exactly 2 chunks with `total_chunks = 2` on both and indices `[0, 1]`. -/
theorem chunk_text_two_chapter_scenario (text title : List Char) (s₁ s₂ : Nat)
    (hstarts : finditerStarts chapMatch1 (cleanWs text) = [s₁, s₂])
    (hlen : (cleanWs text).length = 3000)
    (hc1 : (pyStrip (sliceNat (cleanWs text) s₁ s₂)).length ≤ 2000)
    (hc2 : (pyStrip (sliceNat (cleanWs text) s₂ 3000)).length ≤ 2000) :
    (chunk_text 1000 200 text title).length = 2 ∧
    (∀ c ∈ chunk_text 1000 200 text title, c.total_chunks = 2) ∧
    (chunk_text 1000 200 text title).map (fun c => c.chunk_index) = [0, 1] := by
  have hfps : firstPatternStarts chapterMatchers (cleanWs text) = [s₁, s₂] := by
    rw [show chapterMatchers = chapMatch1 :: [chapMatch2, chapMatch3, chapMatch4,
      chapMatch5, chapMatch6, chapMatch7, chapMatch8] from rfl]
    rw [firstPatternStarts_cons, hstarts]
    rw [if_pos (by simp)]
  have hfcb : find_chapter_boundaries (cleanWs text) =
      [{ title := mkChapterTitle (cleanWs text) s₁ 0
         content := pyStrip (sliceNat (cleanWs text) s₁ s₂), index := 0 },
       { title := mkChapterTitle (cleanWs text) s₂ 1
         content := pyStrip (sliceNat (cleanWs text) s₂ (cleanWs text).length), index := 1 }] := by
    rw [find_chapter_boundaries, hfps]
    simp only [buildChapters]
  rw [hlen] at hfcb
  have hpath : chunk_text 1000 200 text title =
      process_chapter_chunks 1000 200 (find_chapter_boundaries (cleanWs text)) := by
    unfold chunk_text
    rw [if_neg (by omega), if_pos (by rw [hfcb]; simp)]
  rw [hpath, hfcb]
  unfold process_chapter_chunks
  simp only [List.enum, List.enumFrom, List.map_cons, List.map_nil]
  rw [if_neg (by simpa using hc1), if_neg (by simpa using hc2)]
  simp [backfillTotals]

/-- A 3000-character cleaned document with exactly two chapter markers (at
positions 0 and 1492). -/
def threeKText : List Char :=
  "Chapter 1. ".data ++ List.replicate 1480 'a' ++
    " Chapter 2. ".data ++ List.replicate 1497 'a'

/-- The whitespace flag carried by `collapseWsAux` after processing `l`. -/
def wsStateAfter (prev : Bool) (l : List Char) : Bool :=
  match l.getLast? with
  | some c => pyIsSpace c
  | none => prev

lemma wsStateAfter_cons (prev : Bool) (c : Char) (t : List Char) :
    wsStateAfter prev (c :: t) = wsStateAfter (pyIsSpace c) t := by
  cases t with
  | nil => rfl
  | cons x xs =>
    simp only [wsStateAfter, List.getLast?_cons_cons]
    cases h : (x :: xs).getLast? with
    | none => exact absurd (List.getLast?_eq_none_iff.mp h) (List.cons_ne_nil x xs)
    | some y => rfl

lemma collapseWsAux_append (l : List Char) : ∀ (prev : Bool) (r : List Char),
    collapseWsAux prev (l ++ r) =
      collapseWsAux prev l ++ collapseWsAux (wsStateAfter prev l) r := by
  induction l with
  | nil => intro prev r; simp [wsStateAfter, collapseWsAux]
  | cons c t ih =>
    intro prev r
    rw [List.cons_append, wsStateAfter_cons]
    cases hc : pyIsSpace c with
    | true =>
      cases prev with
      | true => simp only [collapseWsAux, hc, if_true]; exact ih true r
      | false =>
        simp only [collapseWsAux, hc, if_true, if_false, Bool.false_eq_true]
        rw [ih true r, List.cons_append]
    | false =>
      simp only [collapseWsAux, hc, Bool.false_eq_true, if_false]
      rw [ih false r, List.cons_append]

lemma collapseWsAux_replicate_a : ∀ (n : Nat) (prev : Bool),
    collapseWsAux prev (List.replicate n 'a') = List.replicate n 'a' := by
  intro n
  induction n with
  | zero => intro prev; rfl
  | succ k ih =>
    intro prev
    rw [List.replicate_succ]
    simp only [collapseWsAux, show pyIsSpace 'a' = false from rfl,
      Bool.false_eq_true, if_false]
    rw [ih false]

lemma getLast?_replicate_a (n : Nat) (h : n ≠ 0) :
    (List.replicate n 'a').getLast? = some 'a' := by
  induction n with
  | zero => exact absurd rfl h
  | succ k ih =>
    cases k with
    | zero => rfl
    | succ j =>
      rw [List.replicate_succ, show List.replicate (j + 1) 'a' =
        'a' :: List.replicate j 'a' from List.replicate_succ .., List.getLast?_cons_cons,
        ← List.replicate_succ]
      exact ih (Nat.succ_ne_zero j)

lemma wsStateAfter_append (prev : Bool) (l r : List Char) :
    wsStateAfter prev (l ++ r) = wsStateAfter (wsStateAfter prev l) r := by
  unfold wsStateAfter
  rw [List.getLast?_append]
  cases hr : r.getLast? with
  | none => simp
  | some y => simp

lemma wsStateAfter_replicate_a (prev : Bool) (n : Nat) (h : n ≠ 0) :
    wsStateAfter prev (List.replicate n 'a') = false := by
  unfold wsStateAfter
  rw [getLast?_replicate_a n h]
  rfl

lemma collapseWsAux_threeK : collapseWsAux false threeKText = threeKText := by
  have w1 : wsStateAfter false "Chapter 1. ".data = true := rfl
  have w2 : wsStateAfter false ("Chapter 1. ".data ++ List.replicate 1480 'a') = false := by
    rw [wsStateAfter_append, w1, wsStateAfter_replicate_a true 1480 (by norm_num)]
  have w3 : wsStateAfter false
      ("Chapter 1. ".data ++ List.replicate 1480 'a' ++ " Chapter 2. ".data) = true := by
    rw [wsStateAfter_append, w2]
    rfl
  unfold threeKText
  rw [collapseWsAux_append, collapseWsAux_append, collapseWsAux_append, w1, w2, w3]
  rw [show collapseWsAux false "Chapter 1. ".data = "Chapter 1. ".data from rfl]
  rw [collapseWsAux_replicate_a, collapseWsAux_replicate_a]
  rw [show collapseWsAux false " Chapter 2. ".data = " Chapter 2. ".data from rfl]

lemma threeK_takeWhile : threeKText.takeWhile pyIsSpace = [] := rfl

lemma threeK_rev_takeWhile : threeKText.reverse.takeWhile pyIsSpace = [] := by
  unfold threeKText
  rw [List.reverse_append, List.reverse_replicate,
    show (1497 : Nat) = 1496 + 1 from rfl, List.replicate_succ]
  rfl

lemma threeK_length : threeKText.length = 3000 := by
  unfold threeKText
  rw [List.length_append, List.length_append, List.length_append,
    List.length_replicate, List.length_replicate,
    show ("Chapter 1. ".data).length = 11 from rfl,
    show (" Chapter 2. ".data).length = 12 from rfl]

lemma pyStrip_threeK : pyStrip threeKText = threeKText := by
  rw [pyStrip, threeK_takeWhile, threeK_rev_takeWhile]
  simp [sliceNat]

lemma cleanWs_threeK : cleanWs threeKText = threeKText := by
  rw [cleanWs, collapseWsAux_threeK, pyStrip_threeK]

lemma chapMatch1_a (prev : Option Char) (xs : List Char) :
    chapMatch1 prev ('a' :: xs) = none := by
  unfold chapMatch1
  split
  · rw [show litCI "chapter".data ('a' :: xs) = none from rfl]
    rfl
  · rfl

lemma chapMatch1_sp (prev : Option Char) (xs : List Char) :
    chapMatch1 prev (' ' :: xs) = none := by
  unfold chapMatch1
  split
  · rw [show litCI "chapter".data (' ' :: xs) = none from rfl]
    rfl
  · rfl

lemma finditerAux_step_fail (m : Option Char → List Char → Option Nat)
    (fuel : Nat) (prev : Option Char) (pos : Nat) (c : Char) (cs : List Char)
    (h : m prev (c :: cs) = none) :
    finditerAux m (fuel + 1) prev pos (c :: cs) =
      finditerAux m fuel (some c) (pos + 1) cs := by
  simp only [finditerAux, h]

lemma finditerAux_step_match (m : Option Char → List Char → Option Nat)
    (fuel : Nat) (prev : Option Char) (pos len : Nat) (c : Char) (cs : List Char)
    (h : m prev (c :: cs) = some len) :
    finditerAux m (fuel + 1) prev pos (c :: cs) =
      pos :: finditerAux m fuel ((c :: cs).get? (max len 1 - 1)) (pos + max len 1)
        ((c :: cs).drop (max len 1)) := by
  simp only [finditerAux, h]

lemma finditer_skip_a : ∀ (n fuel : Nat) (prev : Option Char) (pos : Nat)
    (rest : List Char),
    finditerAux chapMatch1 (n + fuel) prev pos (List.replicate n 'a' ++ rest) =
      finditerAux chapMatch1 fuel (if n = 0 then prev else some 'a') (pos + n) rest := by
  intro n
  induction n with
  | zero => intro fuel prev pos rest; simp
  | succ k ih =>
    intro fuel prev pos rest
    rw [List.replicate_succ, List.cons_append, Nat.succ_add]
    rw [finditerAux_step_fail chapMatch1 (k + fuel) prev pos 'a'
      (List.replicate k 'a' ++ rest) (chapMatch1_a prev _)]
    rw [ih fuel (some 'a') (pos + 1) rest]
    have : (if k = 0 then some 'a' else some 'a') = some 'a' := ite_self _
    rw [this, if_neg (Nat.succ_ne_zero k)]
    have harith : pos + 1 + k = pos + (k + 1) := by omega
    rw [harith]

lemma finditer_skip_a_nil : ∀ (n fuel : Nat) (prev : Option Char) (pos : Nat),
    finditerAux chapMatch1 (n + fuel) prev pos (List.replicate n 'a') = [] := by
  intro n
  induction n with
  | zero =>
    intro fuel prev pos
    cases fuel with
    | zero => rfl
    | succ j => rfl
  | succ k ih =>
    intro fuel prev pos
    rw [List.replicate_succ, Nat.succ_add]
    rw [finditerAux_step_fail chapMatch1 (k + fuel) prev pos 'a'
      (List.replicate k 'a') (chapMatch1_a prev _)]
    exact ih fuel (some 'a') (pos + 1)

lemma consumeWhile_cons_pos (p : Char → Bool) (c : Char) (cs : List Char)
    (h : p c = true) : consumeWhile p (c :: cs) =
      ((consumeWhile p cs).1 + 1, (consumeWhile p cs).2) := by
  simp only [consumeWhile, h, if_true]

lemma consumeWhile_cons_neg (p : Char → Bool) (c : Char) (cs : List Char)
    (h : p c = false) : consumeWhile p (c :: cs) = (0, c :: cs) := by
  simp only [consumeWhile, h, Bool.false_eq_true, if_false]

lemma chapMatch1_chapterD (prev : Option Char) (d : Char) (rest : List Char)
    (hb : boundaryBefore prev = true) (hd : d.isDigit = true) :
    chapMatch1 prev ("Chapter ".data ++ d :: '.' :: ' ' :: rest) = some 10 := by
  have hds : pyIsSpace d = false := not_space_of_digit hd
  have h1 : litCI "chapter".data ("Chapter ".data ++ d :: '.' :: ' ' :: rest) =
      some (' ' :: d :: '.' :: ' ' :: rest) := rfl
  have h2 : consumeSome pyIsSpace (' ' :: d :: '.' :: ' ' :: rest) =
      some (d :: '.' :: ' ' :: rest) := by
    unfold consumeSome
    rw [consumeWhile_cons_pos pyIsSpace ' ' _ rfl,
      consumeWhile_cons_neg pyIsSpace d _ hds]
    rfl
  have h3 : consumeSome Char.isDigit (d :: '.' :: ' ' :: rest) =
      some ('.' :: ' ' :: rest) := by
    unfold consumeSome
    rw [consumeWhile_cons_pos Char.isDigit d _ hd,
      consumeWhile_cons_neg Char.isDigit '.' _ rfl]
    rfl
  have h4 : consumeOne isDotOrSpace ('.' :: ' ' :: rest) = some (' ' :: rest) := rfl
  unfold chapMatch1
  rw [if_pos hb, h1]
  simp only [Option.some_bind]
  rw [h2]
  simp only [Option.some_bind]
  rw [h3]
  simp only [Option.some_bind]
  rw [h4]
  simp only [Option.map_some']
  have hlen : ("Chapter ".data ++ d :: '.' :: ' ' :: rest).length = 11 + rest.length := by
    rw [List.length_append, show ("Chapter ".data).length = 8 from rfl]
    simp only [List.length_cons]
    omega
  rw [hlen]
  simp only [List.length_cons, Option.some.injEq]
  omega

lemma finditer_threeK : finditerStarts chapMatch1 threeKText = [0, 1492] := by
  have hassoc : threeKText = "Chapter 1. ".data ++ (List.replicate 1480 'a' ++
      (" Chapter 2. ".data ++ List.replicate 1497 'a')) := by
    unfold threeKText
    rw [List.append_assoc, List.append_assoc]
  have hm1 : chapMatch1 none ("Chapter 1. ".data ++ (List.replicate 1480 'a' ++
      (" Chapter 2. ".data ++ List.replicate 1497 'a'))) = some 10 := by
    have h := chapMatch1_chapterD none '1'
      (List.replicate 1480 'a' ++ (" Chapter 2. ".data ++ List.replicate 1497 'a'))
      rfl rfl
    exact h
  have st1 : finditerAux chapMatch1 3000 none 0
      ("Chapter 1. ".data ++ (List.replicate 1480 'a' ++
        (" Chapter 2. ".data ++ List.replicate 1497 'a'))) =
      0 :: finditerAux chapMatch1 2999 (some '.') 10
        (' ' :: (List.replicate 1480 'a' ++
          (" Chapter 2. ".data ++ List.replicate 1497 'a'))) := by
    have h := finditerAux_step_match chapMatch1 2999 none 0 10 'C'
      ("hapter 1. ".data ++ (List.replicate 1480 'a' ++
        (" Chapter 2. ".data ++ List.replicate 1497 'a'))) hm1
    exact h
  have st2 : finditerAux chapMatch1 2999 (some '.') 10
      (' ' :: (List.replicate 1480 'a' ++
        (" Chapter 2. ".data ++ List.replicate 1497 'a'))) =
      finditerAux chapMatch1 2998 (some ' ') 11
        (List.replicate 1480 'a' ++
          (" Chapter 2. ".data ++ List.replicate 1497 'a')) :=
    finditerAux_step_fail chapMatch1 2998 (some '.') 10 ' '
      (List.replicate 1480 'a' ++ (" Chapter 2. ".data ++ List.replicate 1497 'a'))
      (chapMatch1_sp _ _)
  have st3 : finditerAux chapMatch1 2998 (some ' ') 11
      (List.replicate 1480 'a' ++
        (" Chapter 2. ".data ++ List.replicate 1497 'a')) =
      finditerAux chapMatch1 1518 (some 'a') 1491
        (" Chapter 2. ".data ++ List.replicate 1497 'a') := by
    have h := finditer_skip_a 1480 1518 (some ' ') 11
      (" Chapter 2. ".data ++ List.replicate 1497 'a')
    exact h
  have st4 : finditerAux chapMatch1 1518 (some 'a') 1491
      (" Chapter 2. ".data ++ List.replicate 1497 'a') =
      finditerAux chapMatch1 1517 (some ' ') 1492
        ("Chapter 2. ".data ++ List.replicate 1497 'a') :=
    finditerAux_step_fail chapMatch1 1517 (some 'a') 1491 ' '
      ("Chapter 2. ".data ++ List.replicate 1497 'a') (chapMatch1_sp _ _)
  have hm2 : chapMatch1 (some ' ') ("Chapter 2. ".data ++ List.replicate 1497 'a') =
      some 10 := by
    have h := chapMatch1_chapterD (some ' ') '2' (List.replicate 1497 'a') rfl rfl
    exact h
  have st5 : finditerAux chapMatch1 1517 (some ' ') 1492
      ("Chapter 2. ".data ++ List.replicate 1497 'a') =
      1492 :: finditerAux chapMatch1 1516 (some '.') 1502
        (' ' :: List.replicate 1497 'a') := by
    have h := finditerAux_step_match chapMatch1 1516 (some ' ') 1492 10 'C'
      ("hapter 2. ".data ++ List.replicate 1497 'a') hm2
    exact h
  have st6 : finditerAux chapMatch1 1516 (some '.') 1502
      (' ' :: List.replicate 1497 'a') =
      finditerAux chapMatch1 1515 (some ' ') 1503 (List.replicate 1497 'a') :=
    finditerAux_step_fail chapMatch1 1515 (some '.') 1502 ' '
      (List.replicate 1497 'a') (chapMatch1_sp _ _)
  have st7 : finditerAux chapMatch1 1515 (some ' ') 1503
      (List.replicate 1497 'a') = [] := by
    have h := finditer_skip_a_nil 1497 18 (some ' ') 1503
    exact h
  unfold finditerStarts
  rw [threeK_length, hassoc, st1, st2, st3, st4, st5, st6, st7]

lemma pyStrip_length_le (l : List Char) : (pyStrip l).length ≤ l.length := by
  rw [pyStrip, sliceNat_length]
  omega

lemma threeK_hstarts : finditerStarts chapMatch1 (cleanWs threeKText) = [0, 1492] := by
  rw [cleanWs_threeK]
  exact finditer_threeK

lemma threeK_hlen : (cleanWs threeKText).length = 3000 := by
  rw [cleanWs_threeK]
  exact threeK_length

lemma threeK_hc1 : (pyStrip (sliceNat (cleanWs threeKText) 0 1492)).length ≤ 2000 := by
  rw [cleanWs_threeK]
  have h1 := pyStrip_length_le (sliceNat threeKText 0 1492)
  rw [sliceNat_length, threeK_length] at h1
  omega

lemma threeK_hc2 : (pyStrip (sliceNat (cleanWs threeKText) 1492 3000)).length ≤ 2000 := by
  rw [cleanWs_threeK]
  have h1 := pyStrip_length_le (sliceNat threeKText 1492 3000)
  rw [sliceNat_length, threeK_length] at h1
  omega

/-- Witness for C6: the concrete 3000-character two-chapter document yields
exactly 2 chunks with `total_chunks = 2` and indices `[0, 1]`. -/
theorem chunk_text_two_chapter_scenario_witness :
    (chunk_text 1000 200 threeKText "T".data).length = 2 ∧
    (∀ c ∈ chunk_text 1000 200 threeKText "T".data, c.total_chunks = 2) ∧
    (chunk_text 1000 200 threeKText "T".data).map (fun c => c.chunk_index) = [0, 1] :=
  chunk_text_two_chapter_scenario threeKText "T".data 0 1492
    threeK_hstarts threeK_hlen threeK_hc1 threeK_hc2


/-- A document whose first chapter marker is preceded by preamble text
containing the (unique) character `Q`. -/
def preambleText : List Char :=
  "Qq intro text here. Chapter 1. aaa bbb ccc ddd. Chapter 2. eee fff.".data

/-- The position from which `chunk_text`'s output covers the cleaned text:
`0` on the complete and size-based paths, the first chapter match start on
the chapter path (everything before it is dropped by
`_find_chapter_boundaries`). -/
def chunkCoverStart (cs : Nat) (text : List Char) : Nat :=
  if (cleanWs text).length ≤ cs then 0
  else (firstPatternStarts chapterMatchers (cleanWs text)).headD 0

/-- Claim C7 (amended): every non-whitespace position of the cleaned text at
or after `chunkCoverStart` lies inside some emitted chunk, whose content is a
window of the cleaned text. -/
theorem chunk_concat_coverage_amended (text title : List Char) (p : Nat) (c : Char)
    (hg : (cleanWs text).get? p = some c)
    (hw : pyIsSpace c = false)
    (hge : chunkCoverStart 1000 text ≤ p) :
    ∃ ch ∈ chunk_text 1000 200 text title, ∃ a b : Nat,
      a ≤ p ∧ p < b ∧ ch.content = sliceNat (cleanWs text) a b := by
  have hpl : p < (cleanWs text).length := (List.get?_eq_some.mp hg).1
  unfold chunk_text
  by_cases hshort : (cleanWs text).length ≤ 1000
  · rw [if_pos hshort]
    refine ⟨_, List.mem_singleton.mpr rfl, 0, (cleanWs text).length,
      Nat.zero_le _, hpl, ?_⟩
    show cleanWs text = _
    rw [sliceNat_full]
  · rw [if_neg hshort]
    by_cases hchap : find_chapter_boundaries (cleanWs text) ≠ []
    · rw [if_pos hchap]
      rcases hsf : firstPatternStarts chapterMatchers (cleanWs text) with _ | ⟨s₀, rest⟩
      · exfalso
        apply hchap
        rw [find_chapter_boundaries, hsf]
        rfl
      · have hcover : chunkCoverStart 1000 text = s₀ := by
          unfold chunkCoverStart
          rw [if_neg hshort, hsf]
          rfl
        rw [hcover] at hge
        have hbound : ∀ x ∈ s₀ :: rest, x < (cleanWs text).length := by
          rcases firstPatternStarts_cases chapterMatchers (cleanWs text) with hnil | ⟨m, hm, heq⟩
          · rw [hsf] at hnil
            exact absurd hnil (by simp)
          · rw [hsf] at heq
            intro x hx
            rw [heq] at hx
            have := finditerAux_mem_bounds _ _ _ _ _ hx
            omega
        obtain ⟨ch, hch, s, e, hs, he, hel, hcontent⟩ :=
          chapterWindows_cover rest s₀ 0 p hbound hpl hge
        have hchb : ch ∈ find_chapter_boundaries (cleanWs text) := by
          rw [find_chapter_boundaries, hsf]
          exact hch
        exact process_chapter_chunks_coverage hchb (newline_not_mem_cleanWs text)
          hcontent hs he hel hg hw
    · rw [if_neg hchap]
      unfold size_based_chunking backfillTotals
      obtain ⟨ch, hch, a, b, h1, h2, h3⟩ :=
        sizeLoop_coverage ((cleanWs text).length + 1) 0 0 p c le_rfl
          (by push_cast; omega) (by omega) hg hw
      refine ⟨_, List.mem_map_of_mem _ hch, a, b, h1, h2, ?_⟩
      show ch.content = _
      exact h3

/-- Witness for C7 (amended): position 0 of the small two-chapter document
(the complete-chunk path) is covered by an emitted chunk. -/
theorem chunk_concat_coverage_amended_witness :
    ∃ ch ∈ chunk_text 1000 200 twoChapterSmall "T".data, ∃ a b : Nat,
      a ≤ 0 ∧ 0 < b ∧ ch.content = sliceNat (cleanWs twoChapterSmall) a b :=
  chunk_concat_coverage_amended twoChapterSmall "T".data 0 'C' (by decide) (by decide)
    (by decide)

set_option maxRecDepth 8000 in
/-- Counterexample for C7 as stated: the preamble before the first chapter
marker is dropped — `Q` occurs in the cleaned text but in no emitted chunk. -/
theorem chunk_text_drops_preamble_cex :
    'Q' ∈ cleanWs preambleText ∧
    ∀ ch ∈ chunk_text 50 10 preambleText "T".data, 'Q' ∉ ch.content := by decide

end Scraper
